import Mathlib

/-!
# Verification of the create-ai-kit template reconciliation engine

This file is a shallow embedding of the reconciliation core of
`bin/create-ai-kit.js` (the `runInit` entry point): the per-destination
decision algorithm, the manifest load/commit logic, the apply/write phase
with per-file failure isolation, and the path mapper.

Modelling conventions:
* File contents and paths are `String`s; the on-disk target tree and the
  manifest `files` object are association lists with first-match lookup
  (an update prepends, so the most recent write shadows older entries,
  matching JavaScript object assignment and file overwrites).
* `calculateChecksum` (md5) is kept abstract as a parameter
  `hash : Content → Fp`; the code only ever compares digests for equality.
* JavaScript string operations (`startsWith`, `endsWith`, `includes`,
  single-occurrence `replace`) are implemented over `String.data` so that
  they evaluate inside the kernel.
* Directory existence of the `.cursor` folder and of the target root are
  booleans in the run input (`hasCursor`, `rootExists`), since the model's
  file map only tracks regular files.
* Out-of-scope collaborators (clipboard, project detection, hydration
  prompt, the byte-level content of the `.gitignore` / `package.json`
  auxiliary updates) are not modelled; the auxiliary writes appear only as
  trace operations and optional-failure records, which is all the claims
  about them mention.
-/

namespace AiKit

/-- File contents (byte strings read/written by the CLI). -/
abbrev Content := String

/-- Content fingerprints: the hex digest strings produced by
`calculateChecksum`. -/
abbrev Fp := String

/-! ## String helpers (JavaScript semantics) -/

/-- Replace the first occurrence of `pat` in a character list
(JavaScript `String.prototype.replace` with a string pattern). -/
def replaceFirstList (pat repl : List Char) : List Char → List Char
  | [] => if pat.isEmpty then repl else []
  | c :: rest =>
    if pat.isPrefixOf (c :: rest) then repl ++ (c :: rest).drop pat.length
    else c :: replaceFirstList pat repl rest

/-- JavaScript `s.replace(pat, repl)`: first occurrence only. -/
def strReplaceFirst (s pat repl : String) : String :=
  String.mk (replaceFirstList pat.data repl.data s.data)

/-- Does `pat` occur as a contiguous infix of `s`? -/
def isInfixL (pat : List Char) : List Char → Bool
  | [] => pat.isEmpty
  | c :: rest => pat.isPrefixOf (c :: rest) || isInfixL pat rest

/-- JavaScript `s.includes(pat)`. -/
def strContains (s pat : String) : Bool :=
  isInfixL pat.data s.data

/-- JavaScript `s.endsWith(suf)`. -/
def strEndsWith (s suf : String) : Bool :=
  suf.data.isSuffixOf s.data

/-- JavaScript `s.startsWith(pre)`. -/
def strStartsWith (s pre : String) : Bool :=
  pre.data.isPrefixOf s.data

/-! ## Association lists: the file map and the manifest `files` object -/

/-- First-match lookup in an association list. -/
def lookupA {α : Type} : List (String × α) → String → Option α
  | [], _ => none
  | (k0, v) :: rest, k => if k0 = k then some v else lookupA rest k

/-- Truthiness of `Boolean(lastChecksum)` for an optional digest string:
`undefined` and the empty string are falsy, every other string truthy. -/
def jsTruthy : Option Fp → Bool
  | none => false
  | some s => !(s == "")

/-! ## Path mapper (the in-loop renames of `runInit`) -/

/-- The `targetRelPath` computation: rename a leading `_cursor` segment to
the resolved cursor directory name, then rename
`file-doc-map.template.json` to `file-doc-map.json`. -/
def mapTemplatePath (cursorDirName relPath : String) : String :=
  let p1 :=
    if strStartsWith relPath "_cursor" then
      strReplaceFirst relPath "_cursor" cursorDirName
    else relPath
  if strContains p1 "file-doc-map.template.json" then
    strReplaceFirst p1 "file-doc-map.template.json" "file-doc-map.json"
  else p1

/-- The in-loop rewrite of the shipped `file-doc-map.json` content when a
non-default cursor directory is used. -/
def effTemplateContent (cursorDirName targetRelPath : String) (tc : Content) : Content :=
  if cursorDirName != ".cursor" && targetRelPath == "scripts/docs-update/file-doc-map.json" then
    strReplaceFirst tc ".cursor/rules/**" (cursorDirName ++ "/rules/**")
  else tc

/-- The run's preserve list (`preserveList` in `runInit`), built from the
resolved cursor directory name. -/
def preserveListFor (cursorDirName : String) : List String :=
  ["AGENTS.md", cursorDirName ++ "/rules/main.mdc", cursorDirName ++ "/HYDRATE.md"]

/-! ## Manifest store -/

/-- State of the manifest file on disk at run start: missing, present but
unparsable (`JSON.parse` throws), or present and parsed into its `files`
map. -/
inductive ManifestFile
  | missing
  | corrupt
  | parsed (files : List (String × Fp))

/-- Existence test `fs.existsSync(manifestPath)`. -/
def hasManifestFile : ManifestFile → Bool
  | .missing => false
  | .corrupt => true
  | .parsed _ => true

/-- The `manifestBaseline` value: `null` when the file is missing or fails
to parse (the parse failure only warns), the parsed `files` map otherwise. -/
def loadBaseline : ManifestFile → Option (List (String × Fp))
  | .missing => none
  | .corrupt => none
  | .parsed files => some files

/-- Flag `safeUpgradeWithoutManifest = hasCursor && !hasManifest && !options.force`. -/
def safeUpgradeFlag (hasCursor : Bool) (mf : ManifestFile) (force : Bool) : Bool :=
  hasCursor && !hasManifestFile mf && !force

/-- The in-memory `manifest.files` object at the start of the run: a copy
of the baseline's entries when the file parsed, empty otherwise.  (With
`--zero-config` the code keeps the same value on every reachable branch:
existing entries are kept explicitly, and an empty or absent `files` map
yields the empty object either way.) -/
def initManifest (baseline : Option (List (String × Fp))) : List (String × Fp) :=
  baseline.getD []

/-! ## Reconciliation decisions -/

/-- The per-destination decision taxonomy. -/
inductive Decision
  | preserve
  | create
  | skipUnchanged
  | skipExisting
  | updateInPlace
  | conflictWriteSibling
  deriving DecidableEq, Repr

/-- The decision branch structure of the per-file loop of `runInit`,
as a pure function of the template checksum, the current on-disk content,
the baseline manifest entry, the preserve list, and the run flags.
`lastChecksum` is `manifestBaseline?.files?.[targetRelPath]`. -/
def decideFile (hash : Content → Fp) (plist : List String) (force safeUpgrade : Bool)
    (lastChecksum : Option Fp) (templateChecksum : Fp)
    (current : Option Content) (targetRelPath : String) : Decision :=
  match current with
  | none => .create
  | some cur =>
    if plist.any (fun p => strEndsWith targetRelPath p) then .preserve
    else if hash cur == templateChecksum then .skipUnchanged
    else
      let hasBaseline := jsTruthy lastChecksum
      let userModified :=
        (hasBaseline && !(lastChecksum == some (hash cur))) || (!hasBaseline && safeUpgrade)
      if force || safeUpgrade then
        if userModified then .conflictWriteSibling else .updateInPlace
      else .skipExisting

/-- Accumulated state of the decision loop: the in-memory manifest and the
`creations` / `updates` / `skips` / `newFiles` buckets (plus the decision
taken per destination, in processing order). -/
structure DecState where
  manifest : List (String × Fp)
  creations : List (String × Content × Fp)
  updates : List (String × Content × Fp)
  skips : List String
  newFiles : List (String × Content)
  decisions : List (String × Decision)
  deriving Repr

/-- One iteration of the per-file loop of `runInit` (decision phase).
The loop never writes to disk, so every iteration reads the same `fs0`.
The branch structure follows the source: the preserve check fires only
when the destination exists; a missing destination is a creation;
otherwise the checksum comparisons pick update/conflict/skip. -/
def processRecord (hash : Content → Fp) (cursorDirName : String) (force safeUpgrade : Bool)
    (fs0 : List (String × Content)) (baseline : Option (List (String × Fp)))
    (st : DecState) (rec : String × Content) : DecState :=
  let targetRelPath := mapTemplatePath cursorDirName rec.1
  let templateContent := effTemplateContent cursorDirName targetRelPath rec.2
  let templateChecksum := hash templateContent
  match lookupA fs0 targetRelPath with
  | none =>
    { st with
      creations := st.creations ++ [(targetRelPath, templateContent, templateChecksum)],
      decisions := st.decisions ++ [(targetRelPath, .create)] }
  | some cur =>
    if (preserveListFor cursorDirName).any (fun p => strEndsWith targetRelPath p) then
      { st with
        skips := st.skips ++ [targetRelPath],
        manifest := (targetRelPath, hash cur) :: st.manifest,
        decisions := st.decisions ++ [(targetRelPath, .preserve)] }
    else if hash cur == templateChecksum then
      { st with
        manifest := (targetRelPath, templateChecksum) :: st.manifest,
        decisions := st.decisions ++ [(targetRelPath, .skipUnchanged)] }
    else
      let lastChecksum := baseline.bind (fun b => lookupA b targetRelPath)
      let hasBaseline := jsTruthy lastChecksum
      let userModified :=
        (hasBaseline && !(lastChecksum == some (hash cur))) || (!hasBaseline && safeUpgrade)
      if force || safeUpgrade then
        if userModified then
          { st with
            newFiles := st.newFiles ++ [(targetRelPath ++ ".new", templateContent)],
            decisions := st.decisions ++ [(targetRelPath, .conflictWriteSibling)] }
        else
          { st with
            updates := st.updates ++ [(targetRelPath, templateContent, templateChecksum)],
            decisions := st.decisions ++ [(targetRelPath, .updateInPlace)] }
      else
        { st with
          manifest :=
            if hasBaseline then (targetRelPath, hash cur) :: st.manifest else st.manifest,
          decisions := st.decisions ++ [(targetRelPath, .skipExisting)] }

/-- The whole decision phase: fold the per-file loop over the template
records, starting from the baseline copy of the manifest. -/
def decisionPhase (hash : Content → Fp) (cursorDirName : String) (force safeUpgrade : Bool)
    (fs0 : List (String × Content)) (baseline : Option (List (String × Fp)))
    (templates : List (String × Content)) : DecState :=
  templates.foldl (processRecord hash cursorDirName force safeUpgrade fs0 baseline)
    { manifest := initManifest baseline, creations := [], updates := [], skips := [],
      newFiles := [], decisions := [] }

/-! ## Apply/write executor -/

/-- Trace of filesystem mutations attempted by a run.  `rename` never
occurs in the code; it is part of the vocabulary so that the
write-then-rename (atomic commit) property can be stated. -/
inductive FsOp
  | ensureRootDir
  | writeFile (path : String) (content : Content)
  | writeOptional (path : String)
  | writeManifest (entries : List (String × Fp))
  | rename (src dst : String)
  deriving DecidableEq, Repr

/-- A pending write: destination path, content, and the manifest entry to
record on success (`none` for conflict sibling files). -/
abbrev WriteItem := String × Content × Option Fp

/-- State threaded through the write loops. -/
structure ApplyState where
  fs : List (String × Content)
  manifest : List (String × Fp)
  trace : List FsOp
  critical : List String
  deriving Repr

/-- One guarded `fse.outputFileSync` call: on success the file and (for
creations/updates) the manifest entry are updated; on failure the path is
recorded as a critical failure and the loop continues with the next file. -/
def applyWrite (writeOk : String → Bool) (st : ApplyState) (w : WriteItem) : ApplyState :=
  if writeOk w.1 then
    { st with
      fs := (w.1, w.2.1) :: st.fs,
      manifest :=
        match w.2.2 with
        | some ck => (w.1, ck) :: st.manifest
        | none => st.manifest,
      trace := st.trace ++ [.writeFile w.1 w.2.1] }
  else
    { st with
      trace := st.trace ++ [.writeFile w.1 w.2.1],
      critical := st.critical ++ [w.1] }

/-- The write list in execution order: creations, then updates, then
conflict sibling (`.new`) files.  Only the first two record checksums. -/
def writesOf (ds : DecState) : List WriteItem :=
  ds.creations.map (fun w => (w.1, w.2.1, some w.2.2))
    ++ ds.updates.map (fun w => (w.1, w.2.1, some w.2.2))
    ++ ds.newFiles.map (fun w => (w.1, w.2, (none : Option Fp)))

/-- Constant `MANIFEST_FILE`. -/
def manifestFileName : String := ".ai-kit-manifest.json"

/-- Path of the `.gitignore` auxiliary update. -/
def gitignoreName : String := ".gitignore"

/-- Path of the `package.json` scripts auxiliary update. -/
def packageJsonName : String := "package.json"

/-! ## The run -/

/-- Inputs of one `runInit` invocation, resolved at run start:
the walked template records (relative path and shipped content), the
current target tree, the manifest file state, directory-existence facts,
the resolved cursor directory name, the flags, and a per-path success
oracle for write calls. -/
structure RunInput where
  templates : List (String × Content)
  fs : List (String × Content)
  manifestFile : ManifestFile
  hasCursor : Bool
  rootExists : Bool
  cursorDirName : String
  force : Bool
  dryRun : Bool
  gitignore : Bool
  zeroConfig : Bool
  writeOk : String → Bool

/-- Observable outcome of one run. -/
structure RunResult where
  decisions : List (String × Decision)
  fs : List (String × Content)
  nextManifest : List (String × Fp)
  committed : Option (List (String × Fp))
  trace : List FsOp
  criticalFailures : List String
  optionalFailures : List String
  exitFailed : Bool

/-- Value of `safeUpgradeWithoutManifest` for a run input. -/
def safeUpgradeOf (inp : RunInput) : Bool :=
  safeUpgradeFlag inp.hasCursor inp.manifestFile inp.force

/-- The run's parsed baseline. -/
def baselineOf (inp : RunInput) : Option (List (String × Fp)) :=
  loadBaseline inp.manifestFile

/-- The run's decision-phase outcome. -/
def decStateOf (hash : Content → Fp) (inp : RunInput) : DecState :=
  decisionPhase hash inp.cursorDirName inp.force (safeUpgradeOf inp) inp.fs
    (baselineOf inp) inp.templates

/-- The unconditional `fse.ensureDirSync(projectRoot)` at run start: the
missing target root is created before the dry-run check. -/
def rootTrace (inp : RunInput) : List FsOp :=
  if inp.rootExists then [] else [.ensureRootDir]

/-- Auxiliary (optional) write targets: the `.gitignore` update unless
`--no-gitignore`, and the `package.json` scripts update unless
`--zero-config` or no `package.json` exists.  Their byte-level contents
are outside the reconciliation core and not modelled. -/
def optionalTargets (inp : RunInput) (fsAfter : List (String × Content)) : List String :=
  (if inp.gitignore then [gitignoreName] else [])
    ++ (if !inp.zeroConfig && (lookupA fsAfter packageJsonName).isSome then
          [packageJsonName]
        else [])

/-- The whole `runInit` reconciliation pipeline: unconditional root
creation, decision phase, then either the dry-run report (no mutation) or
the write loops followed by the single manifest commit (a plain
`fs.writeFileSync`, recorded as critical on failure) and the auxiliary
optional writes (recorded as optional failures).  The run reports a failed
exit exactly when a critical failure was recorded. -/
def runInit (hash : Content → Fp) (inp : RunInput) : RunResult :=
  let ds := decStateOf hash inp
  if inp.dryRun then
    { decisions := ds.decisions, fs := inp.fs, nextManifest := ds.manifest,
      committed := none, trace := rootTrace inp, criticalFailures := [],
      optionalFailures := [], exitFailed := false }
  else
    let st1 := (writesOf ds).foldl (applyWrite inp.writeOk)
      { fs := inp.fs, manifest := ds.manifest, trace := rootTrace inp, critical := [] }
    let manifestOk := inp.writeOk manifestFileName
    let critical2 :=
      if manifestOk then st1.critical else st1.critical ++ [manifestFileName]
    let optTargets := optionalTargets inp st1.fs
    { decisions := ds.decisions,
      fs := st1.fs,
      nextManifest := st1.manifest,
      committed := if manifestOk then some st1.manifest else none,
      trace := st1.trace ++ [.writeManifest st1.manifest] ++ optTargets.map FsOp.writeOptional,
      criticalFailures := critical2,
      optionalFailures := optTargets.filter (fun p => !inp.writeOk p),
      exitFailed := !(critical2 == []) }

/-! ## Derived per-record views -/

/-- Destination path of a template record. -/
def destOf (cursorDirName : String) (rec : String × Content) : String :=
  mapTemplatePath cursorDirName rec.1

/-- Effective template content of a record (after the cursor-dir rewrite). -/
def ecOf (cursorDirName : String) (rec : String × Content) : Content :=
  effTemplateContent cursorDirName (mapTemplatePath cursorDirName rec.1) rec.2

/-- The baseline manifest entry consulted for a destination. -/
def baseEntryOf (baseline : Option (List (String × Fp))) (d : String) : Option Fp :=
  baseline.bind (fun b => lookupA b d)

/-- The decision taken for one record, as `decideFile` applied to the
record's derived inputs. -/
def recDecide (hash : Content → Fp) (cursorDirName : String) (force safeUpgrade : Bool)
    (fs0 : List (String × Content)) (baseline : Option (List (String × Fp)))
    (rec : String × Content) : Decision :=
  decideFile hash (preserveListFor cursorDirName) force safeUpgrade
    (baseEntryOf baseline (destOf cursorDirName rec)) (hash (ecOf cursorDirName rec))
    (lookupA fs0 (destOf cursorDirName rec)) (destOf cursorDirName rec)

/-- Destination list of a run. -/
def destsOf (inp : RunInput) : List String :=
  inp.templates.map (fun rec => mapTemplatePath inp.cursorDirName rec.1)

/-- Well-formed destination set: pairwise distinct, and no destination is
another destination's conflict sibling (`d ++ ".new"`).  The shipped
template tree satisfies both. -/
def wfDests (dests : List String) : Prop :=
  dests.Nodup ∧ ∀ a ∈ dests, ∀ b ∈ dests, ¬(a ++ ".new" = b)

instance (dests : List String) : Decidable (wfDests dests) := by
  unfold wfDests; infer_instance

/-! ## Lookup lemmas -/

theorem lookupA_nil {α : Type} (k : String) : lookupA ([] : List (String × α)) k = none := rfl

theorem lookupA_cons {α : Type} (e : String × α) (rest : List (String × α)) (k : String) :
    lookupA (e :: rest) k = if e.1 = k then some e.2 else lookupA rest k := rfl

theorem lookupA_append_of_none {α : Type} {xs : List (String × α)} {k : String}
    (ys : List (String × α)) (h : lookupA xs k = none) :
    lookupA (xs ++ ys) k = lookupA ys k := by
  induction xs with
  | nil => simp
  | cons e rest ih =>
    rw [lookupA_cons] at h
    by_cases hk : e.1 = k
    · simp [hk] at h
    · simpa [lookupA_cons, hk] using ih (by simpa [hk] using h)

theorem lookupA_append_of_some {α : Type} {xs : List (String × α)} {k : String} {v : α}
    (ys : List (String × α)) (h : lookupA xs k = some v) :
    lookupA (xs ++ ys) k = some v := by
  induction xs with
  | nil => simp [lookupA_nil] at h
  | cons e rest ih =>
    rw [lookupA_cons] at h
    by_cases hk : e.1 = k
    · simp [hk] at h; simp [lookupA_cons, hk, h]
    · simpa [lookupA_cons, hk] using ih (by simpa [hk] using h)

theorem lookupA_eq_none_of_not_mem {α : Type} {xs : List (String × α)} {k : String}
    (h : ∀ e ∈ xs, e.1 ≠ k) : lookupA xs k = none := by
  induction xs with
  | nil => rfl
  | cons e rest ih =>
    rw [lookupA_cons]
    have he := h e (by simp)
    simp only [if_neg he]
    exact ih fun e' he' => h e' (by simp [he'])

theorem lookupA_append_not_mem {α : Type} {xs : List (String × α)} {k : String}
    (ys : List (String × α)) (h : ∀ e ∈ xs, e.1 ≠ k) :
    lookupA (xs ++ ys) k = lookupA ys k :=
  lookupA_append_of_none ys (lookupA_eq_none_of_not_mem h)

/-! ## Decomposition of the decision loop -/

/-- The manifest entry written by the decision phase for one record
(`none` when the decision phase leaves the entry alone). -/
def recEntryDelta (hash : Content → Fp) (cursorDirName : String) (force safeUpgrade : Bool)
    (fs0 : List (String × Content)) (baseline : Option (List (String × Fp)))
    (rec : String × Content) : Option Fp :=
  match lookupA fs0 (destOf cursorDirName rec),
      recDecide hash cursorDirName force safeUpgrade fs0 baseline rec with
  | some cur, .preserve => some (hash cur)
  | some _, .skipUnchanged => some (hash (ecOf cursorDirName rec))
  | some cur, .skipExisting =>
    if jsTruthy (baseEntryOf baseline (destOf cursorDirName rec)) then some (hash cur) else none
  | _, _ => none

theorem processRecord_eq (hash : Content → Fp) (cd : String) (force safeUpgrade : Bool)
    (fs0 : List (String × Content)) (baseline : Option (List (String × Fp)))
    (st : DecState) (rec : String × Content) :
    processRecord hash cd force safeUpgrade fs0 baseline st rec =
      { manifest :=
          match recEntryDelta hash cd force safeUpgrade fs0 baseline rec with
          | some v => (destOf cd rec, v) :: st.manifest
          | none => st.manifest,
        creations := st.creations ++
          (if recDecide hash cd force safeUpgrade fs0 baseline rec = .create then
            [(destOf cd rec, ecOf cd rec, hash (ecOf cd rec))] else []),
        updates := st.updates ++
          (if recDecide hash cd force safeUpgrade fs0 baseline rec = .updateInPlace then
            [(destOf cd rec, ecOf cd rec, hash (ecOf cd rec))] else []),
        skips := st.skips ++
          (if recDecide hash cd force safeUpgrade fs0 baseline rec = .preserve then
            [destOf cd rec] else []),
        newFiles := st.newFiles ++
          (if recDecide hash cd force safeUpgrade fs0 baseline rec = .conflictWriteSibling then
            [(destOf cd rec ++ ".new", ecOf cd rec)] else []),
        decisions := st.decisions ++
          [(destOf cd rec, recDecide hash cd force safeUpgrade fs0 baseline rec)] } := by
  cases h : lookupA fs0 (mapTemplatePath cd rec.1) with
  | none =>
    simp [processRecord, recEntryDelta, recDecide, decideFile, destOf, ecOf, baseEntryOf, h]
  | some cur =>
    by_cases hp : (preserveListFor cd).any
        (fun p => strEndsWith (mapTemplatePath cd rec.1) p)
    · simp [processRecord, recEntryDelta, recDecide, decideFile, destOf, ecOf, baseEntryOf, h, hp]
    · by_cases hc : hash cur
          == hash (effTemplateContent cd (mapTemplatePath cd rec.1) rec.2)
      · simp [processRecord, recEntryDelta, recDecide, decideFile, destOf, ecOf, baseEntryOf,
          h, hp, hc]
      · by_cases hf : (force || safeUpgrade) = true
        · by_cases hm :
              (jsTruthy (baseline.bind fun b => lookupA b (mapTemplatePath cd rec.1)) &&
                !((baseline.bind fun b => lookupA b (mapTemplatePath cd rec.1))
                    == some (hash cur)) ||
                (!jsTruthy (baseline.bind fun b => lookupA b (mapTemplatePath cd rec.1)) &&
                  safeUpgrade)) = true
          · simp [processRecord, recEntryDelta, recDecide, decideFile, destOf, ecOf, baseEntryOf,
              h, hp, hc, hf, hm]
          · simp [processRecord, recEntryDelta, recDecide, decideFile, destOf, ecOf, baseEntryOf,
              h, hp, hc, hf, hm]
        · by_cases hb : jsTruthy (baseline.bind fun b => lookupA b (mapTemplatePath cd rec.1))
          · simp [processRecord, recEntryDelta, recDecide, decideFile, destOf, ecOf, baseEntryOf,
              h, hp, hc, hf, hb]
          · simp [processRecord, recEntryDelta, recDecide, decideFile, destOf, ecOf, baseEntryOf,
              h, hp, hc, hf, hb]

/-! ## Fold characterizations of the decision phase -/

theorem foldl_decisions (hash : Content → Fp) (cd : String) (force safeUpgrade : Bool)
    (fs0 : List (String × Content)) (baseline : Option (List (String × Fp)))
    (ts : List (String × Content)) (st : DecState) :
    (ts.foldl (processRecord hash cd force safeUpgrade fs0 baseline) st).decisions =
      st.decisions ++
        ts.map (fun rec => (destOf cd rec, recDecide hash cd force safeUpgrade fs0 baseline rec)) := by
  induction ts generalizing st with
  | nil => simp
  | cons t ts ih => rw [List.foldl_cons, ih, processRecord_eq]; simp

theorem foldl_manifest (hash : Content → Fp) (cd : String) (force safeUpgrade : Bool)
    (fs0 : List (String × Content)) (baseline : Option (List (String × Fp)))
    (ts : List (String × Content)) (st : DecState) :
    (ts.foldl (processRecord hash cd force safeUpgrade fs0 baseline) st).manifest =
      (ts.filterMap (fun rec =>
        (recEntryDelta hash cd force safeUpgrade fs0 baseline rec).map
          (fun v => (destOf cd rec, v)))).reverse ++ st.manifest := by
  induction ts generalizing st with
  | nil => simp
  | cons t ts ih =>
    rw [List.foldl_cons, ih, processRecord_eq]
    cases hd : recEntryDelta hash cd force safeUpgrade fs0 baseline t <;> simp [hd]

theorem foldl_creations (hash : Content → Fp) (cd : String) (force safeUpgrade : Bool)
    (fs0 : List (String × Content)) (baseline : Option (List (String × Fp)))
    (ts : List (String × Content)) (st : DecState) :
    (ts.foldl (processRecord hash cd force safeUpgrade fs0 baseline) st).creations =
      st.creations ++ ts.filterMap (fun rec =>
        if recDecide hash cd force safeUpgrade fs0 baseline rec = .create then
          some (destOf cd rec, ecOf cd rec, hash (ecOf cd rec))
        else none) := by
  induction ts generalizing st with
  | nil => simp
  | cons t ts ih =>
    rw [List.foldl_cons, ih, processRecord_eq]
    by_cases hd : recDecide hash cd force safeUpgrade fs0 baseline t = .create <;> simp [hd]

theorem foldl_updates (hash : Content → Fp) (cd : String) (force safeUpgrade : Bool)
    (fs0 : List (String × Content)) (baseline : Option (List (String × Fp)))
    (ts : List (String × Content)) (st : DecState) :
    (ts.foldl (processRecord hash cd force safeUpgrade fs0 baseline) st).updates =
      st.updates ++ ts.filterMap (fun rec =>
        if recDecide hash cd force safeUpgrade fs0 baseline rec = .updateInPlace then
          some (destOf cd rec, ecOf cd rec, hash (ecOf cd rec))
        else none) := by
  induction ts generalizing st with
  | nil => simp
  | cons t ts ih =>
    rw [List.foldl_cons, ih, processRecord_eq]
    by_cases hd : recDecide hash cd force safeUpgrade fs0 baseline t = .updateInPlace <;>
      simp [hd]

theorem foldl_newFiles (hash : Content → Fp) (cd : String) (force safeUpgrade : Bool)
    (fs0 : List (String × Content)) (baseline : Option (List (String × Fp)))
    (ts : List (String × Content)) (st : DecState) :
    (ts.foldl (processRecord hash cd force safeUpgrade fs0 baseline) st).newFiles =
      st.newFiles ++ ts.filterMap (fun rec =>
        if recDecide hash cd force safeUpgrade fs0 baseline rec = .conflictWriteSibling then
          some (destOf cd rec ++ ".new", ecOf cd rec)
        else none) := by
  induction ts generalizing st with
  | nil => simp
  | cons t ts ih =>
    rw [List.foldl_cons, ih, processRecord_eq]
    by_cases hd :
        recDecide hash cd force safeUpgrade fs0 baseline t = .conflictWriteSibling <;>
      simp [hd]

/-- The decision taken for one record of a run. -/
def recDecideOf (hash : Content → Fp) (inp : RunInput) (rec : String × Content) : Decision :=
  recDecide hash inp.cursorDirName inp.force (safeUpgradeOf inp) inp.fs (baselineOf inp) rec

theorem decState_decisions (hash : Content → Fp) (inp : RunInput) :
    (decStateOf hash inp).decisions =
      inp.templates.map (fun rec => (destOf inp.cursorDirName rec, recDecideOf hash inp rec)) := by
  unfold decStateOf decisionPhase recDecideOf
  rw [foldl_decisions]; simp

theorem decState_manifest (hash : Content → Fp) (inp : RunInput) :
    (decStateOf hash inp).manifest =
      (inp.templates.filterMap (fun rec =>
        (recEntryDelta hash inp.cursorDirName inp.force (safeUpgradeOf inp) inp.fs
            (baselineOf inp) rec).map
          (fun v => (destOf inp.cursorDirName rec, v)))).reverse ++
        initManifest (baselineOf inp) := by
  unfold decStateOf decisionPhase
  rw [foldl_manifest]

theorem decState_creations (hash : Content → Fp) (inp : RunInput) :
    (decStateOf hash inp).creations =
      inp.templates.filterMap (fun rec =>
        if recDecideOf hash inp rec = .create then
          some (destOf inp.cursorDirName rec, ecOf inp.cursorDirName rec,
            hash (ecOf inp.cursorDirName rec))
        else none) := by
  unfold decStateOf decisionPhase recDecideOf
  rw [foldl_creations]; simp

theorem decState_updates (hash : Content → Fp) (inp : RunInput) :
    (decStateOf hash inp).updates =
      inp.templates.filterMap (fun rec =>
        if recDecideOf hash inp rec = .updateInPlace then
          some (destOf inp.cursorDirName rec, ecOf inp.cursorDirName rec,
            hash (ecOf inp.cursorDirName rec))
        else none) := by
  unfold decStateOf decisionPhase recDecideOf
  rw [foldl_updates]; simp

theorem decState_newFiles (hash : Content → Fp) (inp : RunInput) :
    (decStateOf hash inp).newFiles =
      inp.templates.filterMap (fun rec =>
        if recDecideOf hash inp rec = .conflictWriteSibling then
          some (destOf inp.cursorDirName rec ++ ".new", ecOf inp.cursorDirName rec)
        else none) := by
  unfold decStateOf decisionPhase recDecideOf
  rw [foldl_newFiles]; simp

/-! ## Fold characterizations of the write loop -/

theorem applyFold_trace (ok : String → Bool) (ws : List WriteItem) (st : ApplyState) :
    (ws.foldl (applyWrite ok) st).trace =
      st.trace ++ ws.map (fun w => FsOp.writeFile w.1 w.2.1) := by
  induction ws generalizing st with
  | nil => simp
  | cons w ws ih =>
    rw [List.foldl_cons, ih]
    by_cases hw : ok w.1 <;> simp [applyWrite, hw]

theorem applyFold_critical (ok : String → Bool) (ws : List WriteItem) (st : ApplyState) :
    (ws.foldl (applyWrite ok) st).critical =
      st.critical ++ (ws.filter (fun w => !ok w.1)).map (fun w => w.1) := by
  induction ws generalizing st with
  | nil => simp
  | cons w ws ih =>
    rw [List.foldl_cons, ih]
    by_cases hw : ok w.1 <;> simp [applyWrite, hw]

theorem applyFold_fs (ok : String → Bool) (ws : List WriteItem) (st : ApplyState) :
    (ws.foldl (applyWrite ok) st).fs =
      ((ws.filter (fun w => ok w.1)).map (fun w => (w.1, w.2.1))).reverse ++ st.fs := by
  induction ws generalizing st with
  | nil => simp
  | cons w ws ih =>
    rw [List.foldl_cons, ih]
    by_cases hw : ok w.1 <;> simp [applyWrite, hw]

theorem applyFold_manifest (ok : String → Bool) (ws : List WriteItem) (st : ApplyState) :
    (ws.foldl (applyWrite ok) st).manifest =
      (ws.filterMap (fun w =>
        if ok w.1 then w.2.2.map (fun ck => (w.1, ck)) else none)).reverse ++ st.manifest := by
  induction ws generalizing st with
  | nil => simp
  | cons w ws ih =>
    rw [List.foldl_cons, ih]
    by_cases hw : ok w.1
    · cases hk : w.2.2 <;> simp [applyWrite, hw, hk]
    · simp [applyWrite, hw]

/-! ## Run-level projections -/

theorem runInit_decisions (hash : Content → Fp) (inp : RunInput) :
    (runInit hash inp).decisions =
      inp.templates.map (fun rec => (destOf inp.cursorDirName rec, recDecideOf hash inp rec)) := by
  by_cases hd : inp.dryRun <;> simp [runInit, hd, decState_decisions]

theorem runInit_fs_nondry (hash : Content → Fp) (inp : RunInput) (hd : inp.dryRun = false) :
    (runInit hash inp).fs =
      (((writesOf (decStateOf hash inp)).filter (fun w => inp.writeOk w.1)).map
        (fun w => (w.1, w.2.1))).reverse ++ inp.fs := by
  simp [runInit, hd, applyFold_fs]

theorem runInit_nextManifest_nondry (hash : Content → Fp) (inp : RunInput)
    (hd : inp.dryRun = false) :
    (runInit hash inp).nextManifest =
      ((writesOf (decStateOf hash inp)).filterMap (fun w =>
        if inp.writeOk w.1 then w.2.2.map (fun ck => (w.1, ck)) else none)).reverse ++
        (decStateOf hash inp).manifest := by
  simp [runInit, hd, applyFold_manifest]

theorem runInit_committed_nondry (hash : Content → Fp) (inp : RunInput)
    (hd : inp.dryRun = false) :
    (runInit hash inp).committed =
      if inp.writeOk manifestFileName then some (runInit hash inp).nextManifest else none := by
  by_cases hm : inp.writeOk manifestFileName <;> simp [runInit, hd, hm]

theorem runInit_critical_nondry (hash : Content → Fp) (inp : RunInput)
    (hd : inp.dryRun = false) :
    (runInit hash inp).criticalFailures =
      ((writesOf (decStateOf hash inp)).filter (fun w => !inp.writeOk w.1)).map
          (fun w => w.1) ++
        (if inp.writeOk manifestFileName then [] else [manifestFileName]) := by
  by_cases hm : inp.writeOk manifestFileName <;>
    simp [runInit, hd, hm, applyFold_critical]

theorem runInit_trace_nondry (hash : Content → Fp) (inp : RunInput)
    (hd : inp.dryRun = false) :
    (runInit hash inp).trace =
      rootTrace inp ++
        (writesOf (decStateOf hash inp)).map (fun w => FsOp.writeFile w.1 w.2.1) ++
        [.writeManifest (runInit hash inp).nextManifest] ++
        (optionalTargets inp (runInit hash inp).fs).map FsOp.writeOptional := by
  simp [runInit, hd, applyFold_trace]

theorem runInit_exitFailed (hash : Content → Fp) (inp : RunInput) :
    (runInit hash inp).exitFailed = !((runInit hash inp).criticalFailures == []) := by
  by_cases hd : inp.dryRun <;> simp [runInit, hd]

theorem runInit_dry (hash : Content → Fp) (inp : RunInput) (hd : inp.dryRun = true) :
    (runInit hash inp).fs = inp.fs ∧ (runInit hash inp).committed = none ∧
      (runInit hash inp).trace = rootTrace inp ∧
      (runInit hash inp).criticalFailures = [] ∧ (runInit hash inp).exitFailed = false := by
  simp [runInit, hd]

/-! ## Uniqueness helpers -/

theorem string_append_cancel {a b c : String} (h : a ++ c = b ++ c) : a = b := by
  have hd := congrArg String.data h
  simp only [String.data_append] at hd
  have h3 : a.data = b.data := List.append_cancel_right hd
  cases a; cases b; simp_all

theorem lookupA_of_mem_unique {α : Type} {xs : List (String × α)} {k : String} {v : α}
    (hmem : (k, v) ∈ xs) (huniq : ∀ e ∈ xs, e.1 = k → e = (k, v)) :
    lookupA xs k = some v := by
  induction xs with
  | nil => simp at hmem
  | cons e rest ih =>
    rw [lookupA_cons]
    by_cases hk : e.1 = k
    · have he := huniq e (by simp) hk
      rw [he]; simp
    · have hm : (k, v) ∈ rest := by
        rcases List.mem_cons.mp hmem with h1 | h1
        · exact absurd (by rw [← h1]) hk
        · exact h1
      simp only [if_neg hk]
      exact ih hm fun e' he' => huniq e' (by simp [he'])

/-- Membership in the run's write list, by origin bucket. -/
theorem mem_writesOf (hash : Content → Fp) (inp : RunInput) (w : WriteItem) :
    w ∈ writesOf (decStateOf hash inp) ↔
      (∃ rec ∈ inp.templates, recDecideOf hash inp rec = .create ∧
        w = (destOf inp.cursorDirName rec, ecOf inp.cursorDirName rec,
          some (hash (ecOf inp.cursorDirName rec)))) ∨
      (∃ rec ∈ inp.templates, recDecideOf hash inp rec = .updateInPlace ∧
        w = (destOf inp.cursorDirName rec, ecOf inp.cursorDirName rec,
          some (hash (ecOf inp.cursorDirName rec)))) ∨
      (∃ rec ∈ inp.templates, recDecideOf hash inp rec = .conflictWriteSibling ∧
        w = (destOf inp.cursorDirName rec ++ ".new", ecOf inp.cursorDirName rec,
          (none : Option Fp))) := by
  simp only [writesOf, decState_creations, decState_updates, decState_newFiles,
    List.mem_append, List.mem_map, List.mem_filterMap]
  constructor
  · rintro ((⟨x, ⟨rec, hrec, hx⟩, hw⟩ | ⟨x, ⟨rec, hrec, hx⟩, hw⟩) | ⟨x, ⟨rec, hrec, hx⟩, hw⟩)
    · left
      refine ⟨rec, hrec, ?_, ?_⟩ <;> by_cases hdec : recDecideOf hash inp rec = .create <;>
        simp [hdec] at hx <;> simp [hdec, ← hx, ← hw]
    · right; left
      refine ⟨rec, hrec, ?_, ?_⟩ <;>
        by_cases hdec : recDecideOf hash inp rec = .updateInPlace <;>
        simp [hdec] at hx <;> simp [hdec, ← hx, ← hw]
    · right; right
      refine ⟨rec, hrec, ?_, ?_⟩ <;>
        by_cases hdec : recDecideOf hash inp rec = .conflictWriteSibling <;>
        simp [hdec] at hx <;> simp [hdec, ← hx, ← hw]
  · rintro (⟨rec, hrec, hdec, hw⟩ | ⟨rec, hrec, hdec, hw⟩ | ⟨rec, hrec, hdec, hw⟩)
    · refine Or.inl (Or.inl ⟨(destOf inp.cursorDirName rec, ecOf inp.cursorDirName rec,
        hash (ecOf inp.cursorDirName rec)), ⟨rec, hrec, by simp [hdec]⟩, by simp [hw]⟩)
    · refine Or.inl (Or.inr ⟨(destOf inp.cursorDirName rec, ecOf inp.cursorDirName rec,
        hash (ecOf inp.cursorDirName rec)), ⟨rec, hrec, by simp [hdec]⟩, by simp [hw]⟩)
    · refine Or.inr ⟨(destOf inp.cursorDirName rec ++ ".new", ecOf inp.cursorDirName rec),
        ⟨rec, hrec, by simp [hdec]⟩, by simp [hw]⟩

/-- Map `destOf` is injective on the records of a run with distinct destinations. -/
theorem destOf_inj (inp : RunInput) (hnd : (destsOf inp).Nodup) :
    ∀ a ∈ inp.templates, ∀ b ∈ inp.templates,
      destOf inp.cursorDirName a = destOf inp.cursorDirName b → a = b := by
  intro a ha b hb hab
  exact List.inj_on_of_nodup_map (by simpa [destsOf, destOf] using hnd) ha hb hab

/-- Final on-disk content at a destination path for a well-formed run in
which all writes succeed: create/update destinations hold the effective
template content, every other destination keeps its pre-run content. -/
theorem runInit_fs_at_dest (hash : Content → Fp) (inp : RunInput)
    (hd : inp.dryRun = false) (hwf : wfDests (destsOf inp))
    (hok : ∀ p, inp.writeOk p = true) {rec : String × Content}
    (hrec : rec ∈ inp.templates) :
    lookupA (runInit hash inp).fs (destOf inp.cursorDirName rec) =
      if recDecideOf hash inp rec = .create ∨ recDecideOf hash inp rec = .updateInPlace then
        some (ecOf inp.cursorDirName rec)
      else lookupA inp.fs (destOf inp.cursorDirName rec) := by
  obtain ⟨hnd, hsib⟩ := hwf
  rw [runInit_fs_nondry hash inp hd]
  have hfil : (writesOf (decStateOf hash inp)).filter (fun w => inp.writeOk w.1)
      = writesOf (decStateOf hash inp) :=
    List.filter_eq_self.mpr fun w _ => hok w.1
  rw [hfil]
  have hinj := destOf_inj inp hnd
  have hdmem : destOf inp.cursorDirName rec ∈ destsOf inp := by
    simp only [destsOf, List.mem_map]
    exact ⟨rec, hrec, rfl⟩
  have hnotsib : ∀ a ∈ inp.templates,
      ¬(destOf inp.cursorDirName a ++ ".new" = destOf inp.cursorDirName rec) := by
    intro a ha
    refine hsib _ ?_ _ hdmem
    simp only [destsOf, List.mem_map]
    exact ⟨a, ha, rfl⟩
  by_cases hdec : recDecideOf hash inp rec = .create ∨ recDecideOf hash inp rec = .updateInPlace
  · rw [if_pos hdec]
    apply lookupA_append_of_some
    have hmemw : (destOf inp.cursorDirName rec, ecOf inp.cursorDirName rec,
        some (hash (ecOf inp.cursorDirName rec))) ∈ writesOf (decStateOf hash inp) := by
      rw [mem_writesOf]
      rcases hdec with h1 | h1
      · exact Or.inl ⟨rec, hrec, h1, rfl⟩
      · exact Or.inr (Or.inl ⟨rec, hrec, h1, rfl⟩)
    apply lookupA_of_mem_unique
    · simp only [List.mem_reverse, List.mem_map]
      exact ⟨_, hmemw, rfl⟩
    · intro e he hek
      simp only [List.mem_reverse, List.mem_map] at he
      obtain ⟨w, hw, hew⟩ := he
      rw [mem_writesOf] at hw
      rcases hw with ⟨a, ha, hda, hwa⟩ | ⟨a, ha, hda, hwa⟩ | ⟨a, ha, hda, hwa⟩
      · subst hwa
        simp only [← hew] at hek ⊢
        have : a = rec := hinj a ha rec hrec hek
        subst this
        rw [hek]
      · subst hwa
        simp only [← hew] at hek ⊢
        have : a = rec := hinj a ha rec hrec hek
        subst this
        rw [hek]
      · subst hwa
        simp only [← hew] at hek
        exact absurd hek (hnotsib a ha)
  · rw [if_neg hdec]
    apply lookupA_append_not_mem
    intro e he
    simp only [List.mem_reverse, List.mem_map] at he
    obtain ⟨w, hw, hew⟩ := he
    rw [mem_writesOf] at hw
    rcases hw with ⟨a, ha, hda, hwa⟩ | ⟨a, ha, hda, hwa⟩ | ⟨a, ha, hda, hwa⟩
    · subst hwa
      simp only [← hew]
      intro had
      exact hdec (Or.inl (by rw [← hinj a ha rec hrec had]; exact hda))
    · subst hwa
      simp only [← hew]
      intro had
      exact hdec (Or.inr (by rw [← hinj a ha rec hrec had]; exact hda))
    · subst hwa
      simp only [← hew]
      exact hnotsib a ha

/-- Final on-disk content at the conflict sibling path: exactly the
record's effective template content. -/
theorem runInit_fs_at_sibling (hash : Content → Fp) (inp : RunInput)
    (hd : inp.dryRun = false) (hwf : wfDests (destsOf inp))
    (hok : ∀ p, inp.writeOk p = true) {rec : String × Content}
    (hrec : rec ∈ inp.templates)
    (hconf : recDecideOf hash inp rec = .conflictWriteSibling) :
    lookupA (runInit hash inp).fs (destOf inp.cursorDirName rec ++ ".new") =
      some (ecOf inp.cursorDirName rec) := by
  obtain ⟨hnd, hsib⟩ := hwf
  rw [runInit_fs_nondry hash inp hd]
  have hfil : (writesOf (decStateOf hash inp)).filter (fun w => inp.writeOk w.1)
      = writesOf (decStateOf hash inp) :=
    List.filter_eq_self.mpr fun w _ => hok w.1
  rw [hfil]
  have hinj := destOf_inj inp hnd
  have hdmem : destOf inp.cursorDirName rec ∈ destsOf inp := by
    simp only [destsOf, List.mem_map]
    exact ⟨rec, hrec, rfl⟩
  -- the sibling path is never itself a destination
  have hnotdest : ∀ a ∈ inp.templates,
      destOf inp.cursorDirName a ≠ destOf inp.cursorDirName rec ++ ".new" := by
    intro a ha heq
    have hamem : destOf inp.cursorDirName a ∈ destsOf inp := by
      simp only [destsOf, List.mem_map]
      exact ⟨a, ha, rfl⟩
    exact hsib _ hdmem (destOf inp.cursorDirName a) hamem heq.symm
  apply lookupA_append_of_some
  have hmemw : (destOf inp.cursorDirName rec ++ ".new", ecOf inp.cursorDirName rec,
      (none : Option Fp)) ∈ writesOf (decStateOf hash inp) := by
    rw [mem_writesOf]
    exact Or.inr (Or.inr ⟨rec, hrec, hconf, rfl⟩)
  apply lookupA_of_mem_unique
  · simp only [List.mem_reverse, List.mem_map]
    exact ⟨_, hmemw, rfl⟩
  · intro e he hek
    simp only [List.mem_reverse, List.mem_map] at he
    obtain ⟨w, hw, hew⟩ := he
    rw [mem_writesOf] at hw
    rcases hw with ⟨a, ha, hda, hwa⟩ | ⟨a, ha, hda, hwa⟩ | ⟨a, ha, hda, hwa⟩
    · subst hwa
      simp only [← hew] at hek
      exact absurd hek (hnotdest a ha)
    · subst hwa
      simp only [← hew] at hek
      exact absurd hek (hnotdest a ha)
    · subst hwa
      simp only [← hew] at hek ⊢
      have ha2 : a = rec := hinj a ha rec hrec (string_append_cancel hek)
      subst ha2
      rw [hek]

/-- Origin of an entry recorded by the write loop: a successfully written
creation or update. -/
theorem mem_applyEntries (hash : Content → Fp) (inp : RunInput) {e : String × Fp}
    (he : e ∈ (writesOf (decStateOf hash inp)).filterMap
      (fun w => if inp.writeOk w.1 then w.2.2.map (fun ck => (w.1, ck)) else none)) :
    ∃ a ∈ inp.templates,
      (recDecideOf hash inp a = .create ∨ recDecideOf hash inp a = .updateInPlace) ∧
        e = (destOf inp.cursorDirName a, hash (ecOf inp.cursorDirName a)) := by
  rw [List.mem_filterMap] at he
  obtain ⟨w, hw, hwe⟩ := he
  by_cases hk : inp.writeOk w.1
  · rw [if_pos hk, Option.map_eq_some'] at hwe
    obtain ⟨ck, hck, hcke⟩ := hwe
    rw [mem_writesOf] at hw
    rcases hw with ⟨a, ha, hda, hwa⟩ | ⟨a, ha, hda, hwa⟩ | ⟨a, ha, hda, hwa⟩
    · subst hwa
      simp only at hck hcke
      refine ⟨a, ha, Or.inl hda, ?_⟩
      rw [← hcke, Option.some_inj.mp hck]
    · subst hwa
      simp only at hck hcke
      refine ⟨a, ha, Or.inr hda, ?_⟩
      rw [← hcke, Option.some_inj.mp hck]
    · subst hwa
      simp at hck
  · rw [if_neg hk] at hwe
    simp at hwe

/-- Origin of an entry recorded by the decision loop. -/
theorem mem_decEntries (hash : Content → Fp) (inp : RunInput) {e : String × Fp}
    (he : e ∈ inp.templates.filterMap (fun a =>
      (recEntryDelta hash inp.cursorDirName inp.force (safeUpgradeOf inp) inp.fs
          (baselineOf inp) a).map (fun v => (destOf inp.cursorDirName a, v)))) :
    ∃ a ∈ inp.templates, ∃ v,
      recEntryDelta hash inp.cursorDirName inp.force (safeUpgradeOf inp) inp.fs
          (baselineOf inp) a = some v ∧
        e = (destOf inp.cursorDirName a, v) := by
  rw [List.mem_filterMap] at he
  obtain ⟨a, ha, hae⟩ := he
  rw [Option.map_eq_some'] at hae
  obtain ⟨v, hv, hve⟩ := hae
  exact ⟨a, ha, v, hv, hve.symm⟩

/-- Committed manifest entry at a destination path for a well-formed run
in which all writes succeed: create/update destinations get the template
checksum from the write loop; otherwise the decision loop's repair (if
any) applies; otherwise the baseline entry is carried over unchanged. -/
theorem runInit_manifest_at_dest (hash : Content → Fp) (inp : RunInput)
    (hd : inp.dryRun = false) (hwf : wfDests (destsOf inp))
    (hok : ∀ p, inp.writeOk p = true) {rec : String × Content}
    (hrec : rec ∈ inp.templates) :
    lookupA (runInit hash inp).nextManifest (destOf inp.cursorDirName rec) =
      if recDecideOf hash inp rec = .create ∨ recDecideOf hash inp rec = .updateInPlace then
        some (hash (ecOf inp.cursorDirName rec))
      else
        match recEntryDelta hash inp.cursorDirName inp.force (safeUpgradeOf inp) inp.fs
            (baselineOf inp) rec with
        | some v => some v
        | none => lookupA (initManifest (baselineOf inp)) (destOf inp.cursorDirName rec) := by
  obtain ⟨hnd, hsib⟩ := hwf
  rw [runInit_nextManifest_nondry hash inp hd, decState_manifest]
  have hinj := destOf_inj inp hnd
  by_cases hdec : recDecideOf hash inp rec = .create ∨ recDecideOf hash inp rec = .updateInPlace
  · rw [if_pos hdec]
    apply lookupA_append_of_some
    have hmemw : (destOf inp.cursorDirName rec, hash (ecOf inp.cursorDirName rec)) ∈
        (writesOf (decStateOf hash inp)).filterMap
          (fun w => if inp.writeOk w.1 then w.2.2.map (fun ck => (w.1, ck)) else none) := by
      rw [List.mem_filterMap]
      refine ⟨(destOf inp.cursorDirName rec, ecOf inp.cursorDirName rec,
        some (hash (ecOf inp.cursorDirName rec))), ?_, ?_⟩
      · rw [mem_writesOf]
        rcases hdec with h1 | h1
        · exact Or.inl ⟨rec, hrec, h1, rfl⟩
        · exact Or.inr (Or.inl ⟨rec, hrec, h1, rfl⟩)
      · simp [hok]
    apply lookupA_of_mem_unique
    · rw [List.mem_reverse]
      exact hmemw
    · intro e he hek
      rw [List.mem_reverse] at he
      obtain ⟨a, ha, hav, hae⟩ := mem_applyEntries hash inp he
      subst hae
      simp only at hek ⊢
      have ha2 : a = rec := hinj a ha rec hrec hek
      subst ha2
      rw [hek]
  · rw [if_neg hdec]
    have hA : ∀ e ∈ ((writesOf (decStateOf hash inp)).filterMap
        (fun w => if inp.writeOk w.1 then w.2.2.map (fun ck => (w.1, ck)) else none)).reverse,
        e.1 ≠ destOf inp.cursorDirName rec := by
      intro e he hek
      rw [List.mem_reverse] at he
      obtain ⟨a, ha, hav, hae⟩ := mem_applyEntries hash inp he
      subst hae
      simp only at hek
      have ha2 : a = rec := hinj a ha rec hrec hek
      subst ha2
      exact hdec hav
    rw [lookupA_append_not_mem _ hA]
    cases hδ : recEntryDelta hash inp.cursorDirName inp.force (safeUpgradeOf inp) inp.fs
        (baselineOf inp) rec with
    | some v =>
      apply lookupA_append_of_some
      apply lookupA_of_mem_unique
      · rw [List.mem_reverse, List.mem_filterMap]
        exact ⟨rec, hrec, by rw [hδ]; rfl⟩
      · intro e he hek
        rw [List.mem_reverse] at he
        obtain ⟨a, ha, v2, hv2, hae⟩ := mem_decEntries hash inp he
        subst hae
        simp only at hek ⊢
        have ha2 : a = rec := hinj a ha rec hrec hek
        subst ha2
        rw [hek]
        rw [hδ] at hv2
        rw [Option.some_inj.mp hv2]
    | none =>
      have hB : ∀ e ∈ (inp.templates.filterMap (fun a =>
          (recEntryDelta hash inp.cursorDirName inp.force (safeUpgradeOf inp) inp.fs
              (baselineOf inp) a).map (fun v => (destOf inp.cursorDirName a, v)))).reverse,
          e.1 ≠ destOf inp.cursorDirName rec := by
        intro e he hek
        rw [List.mem_reverse] at he
        obtain ⟨a, ha, v2, hv2, hae⟩ := mem_decEntries hash inp he
        subst hae
        simp only at hek
        have ha2 : a = rec := hinj a ha rec hrec hek
        subst ha2
        rw [hδ] at hv2
        exact Option.noConfusion hv2
      rw [lookupA_append_not_mem _ hB]

/-- A path that is no record's destination never receives a manifest
entry: the committed value is whatever the baseline had. -/
theorem runInit_manifest_at_nondest (hash : Content → Fp) (inp : RunInput) (q : String)
    (hq : ∀ a ∈ inp.templates, destOf inp.cursorDirName a ≠ q) :
    lookupA (runInit hash inp).nextManifest q =
      lookupA (initManifest (baselineOf inp)) q := by
  have hB : ∀ e ∈ (inp.templates.filterMap (fun a =>
      (recEntryDelta hash inp.cursorDirName inp.force (safeUpgradeOf inp) inp.fs
          (baselineOf inp) a).map (fun v => (destOf inp.cursorDirName a, v)))).reverse,
      e.1 ≠ q := by
    intro e he
    rw [List.mem_reverse] at he
    obtain ⟨a, ha, v2, hv2, hae⟩ := mem_decEntries hash inp he
    subst hae
    exact hq a ha
  by_cases hd : inp.dryRun
  · have hnm : (runInit hash inp).nextManifest = (decStateOf hash inp).manifest := by
      simp [runInit, hd]
    rw [hnm, decState_manifest, lookupA_append_not_mem _ hB]
  · have hA : ∀ e ∈ ((writesOf (decStateOf hash inp)).filterMap
        (fun w => if inp.writeOk w.1 then w.2.2.map (fun ck => (w.1, ck)) else none)).reverse,
        e.1 ≠ q := by
      intro e he
      rw [List.mem_reverse] at he
      obtain ⟨a, ha, hav, hae⟩ := mem_applyEntries hash inp he
      subst hae
      exact hq a ha
    rw [runInit_nextManifest_nondry hash inp (by simpa using hd), decState_manifest,
      lookupA_append_not_mem _ hA, lookupA_append_not_mem _ hB]

/-! ## Spec-side decision rules (for the refinement claim) -/

/-- The ordered decision rules exactly as the specification words them
(§4.5, first match wins), over fingerprints: (1) preserved and current
present, (2) current absent, (3) current equals template, (4) the
`userModified` predicate, (5) force/safe-upgrade split, (6) skip.  Written
from the spec text, to be compared with `decideFile`. -/
def specDecide (template : Fp) (current baseline : Option Fp)
    (isPreserved force safeUpgrade : Bool) : Decision :=
  if isPreserved = true ∧ current.isSome then .preserve
  else
    match current with
    | none => .create
    | some c =>
      if c = template then .skipUnchanged
      else
        if force = true ∨ safeUpgrade = true then
          if (baseline.isSome ∧ baseline ≠ some c) ∨ (baseline = none ∧ safeUpgrade = true) then
            .conflictWriteSibling
          else .updateInPlace
        else .skipExisting

/-- The per-destination next-manifest entry exactly as the specification
words it: preserve records current, create/skip-unchanged/update record
the template fingerprint, conflict leaves the entry unchanged (the
baseline value persists), skip-existing repairs to current when a baseline
was present and leaves the path unset otherwise.  Written from the spec
text, to be compared with the run's committed manifest. -/
def specEntryAfter (template : Fp) (current baseline : Option Fp) (d : Decision) : Option Fp :=
  match d, current with
  | .preserve, some c => some c
  | .create, _ => some template
  | .skipUnchanged, _ => some template
  | .updateInPlace, _ => some template
  | .conflictWriteSibling, _ => baseline
  | .skipExisting, some c => if baseline.isSome then some c else none
  | _, _ => none

/-- The baseline copy that seeds the in-memory manifest agrees with the
per-path baseline entry. -/
theorem lookupA_initManifest (baseline : Option (List (String × Fp))) (d : String) :
    lookupA (initManifest baseline) d = baseEntryOf baseline d := by
  cases baseline <;> simp [initManifest, baseEntryOf, lookupA]

/-- JavaScript truthiness agrees with option-presence on well-formed
(non-empty) digest strings. -/
theorem jsTruthy_eq_isSome {b : Option Fp} (h : b ≠ some "") : jsTruthy b = b.isSome := by
  cases b with
  | none => rfl
  | some s =>
    have hs : s ≠ "" := fun he => h (by rw [he])
    simp [jsTruthy, hs]

/-- The decision branch structure of the code equals the spec's ordered
rules, whenever the baseline entry is a well-formed (non-empty) digest. -/
theorem decideFile_eq_specDecide (hash : Content → Fp) (plist : List String)
    (force safeUpgrade : Bool) (last : Option Fp) (tck : Fp) (cur : Option Content)
    (path : String) (hbase : last ≠ some "") :
    decideFile hash plist force safeUpgrade last tck cur path =
      specDecide tck (cur.map hash) last (plist.any (fun p => strEndsWith path p))
        force safeUpgrade := by
  cases cur with
  | none => simp [decideFile, specDecide]
  | some c =>
    by_cases hp : plist.any (fun p => strEndsWith path p)
    · simp [decideFile, specDecide, hp]
    · by_cases hc : hash c = tck
      · simp [decideFile, specDecide, hp, hc]
      · cases last with
        | none =>
          by_cases hs : safeUpgrade = true <;> by_cases hf : force = true <;>
            simp [decideFile, specDecide, hp, hc, jsTruthy, hs, hf]
        | some b =>
          have hb : b ≠ "" := fun h => hbase (by rw [h])
          by_cases heq : b = hash c
          · subst heq
            by_cases hs : safeUpgrade = true <;> by_cases hf : force = true <;>
              simp [decideFile, specDecide, hp, hc, jsTruthy, hb, hs, hf]
          · by_cases hs : safeUpgrade = true <;> by_cases hf : force = true <;>
              simp [decideFile, specDecide, hp, hc, jsTruthy, hb, heq, hs, hf]

/-- The committed manifest entry of a destination equals the spec's rules
1-6 applied to the record's decision, for a well-formed all-writes-succeed
run. -/
theorem runInit_entry_spec (hash : Content → Fp) (inp : RunInput)
    (hd : inp.dryRun = false) (hwf : wfDests (destsOf inp))
    (hok : ∀ p, inp.writeOk p = true) {rec : String × Content}
    (hrec : rec ∈ inp.templates)
    (hbase : baseEntryOf (baselineOf inp) (destOf inp.cursorDirName rec) ≠ some "") :
    lookupA (runInit hash inp).nextManifest (destOf inp.cursorDirName rec) =
      specEntryAfter (hash (ecOf inp.cursorDirName rec))
        ((lookupA inp.fs (destOf inp.cursorDirName rec)).map hash)
        (baseEntryOf (baselineOf inp) (destOf inp.cursorDirName rec))
        (recDecideOf hash inp rec) := by
  rw [runInit_manifest_at_dest hash inp hd hwf hok hrec]
  cases hc : lookupA inp.fs (destOf inp.cursorDirName rec) with
  | none =>
    have hdec : recDecideOf hash inp rec = .create := by
      simp [recDecideOf, recDecide, decideFile, hc]
    simp [hdec, specEntryAfter]
  | some cur =>
    by_cases hp : (preserveListFor inp.cursorDirName).any
        (fun p => strEndsWith (destOf inp.cursorDirName rec) p)
    · have hdec : recDecideOf hash inp rec = .preserve := by
        simp [recDecideOf, recDecide, decideFile, hc, hp]
      have hdec2 : recDecide hash inp.cursorDirName inp.force (safeUpgradeOf inp) inp.fs
          (baselineOf inp) rec = .preserve := hdec
      simp [hdec, specEntryAfter, recEntryDelta, hdec2, hc]
    · by_cases heq : hash cur = hash (ecOf inp.cursorDirName rec)
      · have hdec : recDecideOf hash inp rec = .skipUnchanged := by
          simp [recDecideOf, recDecide, decideFile, hc, hp, heq]
        have hdec2 : recDecide hash inp.cursorDirName inp.force (safeUpgradeOf inp) inp.fs
            (baselineOf inp) rec = .skipUnchanged := hdec
        simp [hdec, specEntryAfter, recEntryDelta, hdec2, hc, heq]
      · -- current diverges from template
        have hT := jsTruthy_eq_isSome hbase
        by_cases hfs : (inp.force || safeUpgradeOf inp) = true
        · by_cases hjt : jsTruthy (baseEntryOf (baselineOf inp)
              (destOf inp.cursorDirName rec)) = true
          · by_cases hbe : baseEntryOf (baselineOf inp) (destOf inp.cursorDirName rec)
                = some (hash cur)
            · rw [hbe] at hjt
              have hdec : recDecideOf hash inp rec = .updateInPlace := by
                simp [recDecideOf, recDecide, decideFile, hc, hp, heq, hfs, hjt, hbe]
              simp [hdec, specEntryAfter]
            · have hdec : recDecideOf hash inp rec = .conflictWriteSibling := by
                simp [recDecideOf, recDecide, decideFile, hc, hp, heq, hfs, hjt, hbe]
              have hdec2 : recDecide hash inp.cursorDirName inp.force (safeUpgradeOf inp)
                  inp.fs (baselineOf inp) rec = .conflictWriteSibling := hdec
              simp [hdec, specEntryAfter, recEntryDelta, hdec2, hc, lookupA_initManifest]
          · by_cases hsu : safeUpgradeOf inp = true
            · have hdec : recDecideOf hash inp rec = .conflictWriteSibling := by
                simp [recDecideOf, recDecide, decideFile, hc, hp, heq, hfs, hjt, hsu]
              have hdec2 : recDecide hash inp.cursorDirName inp.force (safeUpgradeOf inp)
                  inp.fs (baselineOf inp) rec = .conflictWriteSibling := hdec
              simp [hdec, specEntryAfter, recEntryDelta, hdec2, hc, lookupA_initManifest]
            · have hforce : inp.force = true := by
                rcases (Bool.or_eq_true _ _).mp hfs with h2 | h2
                · exact h2
                · exact absurd h2 hsu
              have hdec : recDecideOf hash inp rec = .updateInPlace := by
                simp [recDecideOf, recDecide, decideFile, hc, hp, heq, hfs, hjt, hsu, hforce]
              simp [hdec, specEntryAfter]
        · have hdec : recDecideOf hash inp rec = .skipExisting := by
            simp [recDecideOf, recDecide, decideFile, hc, hp, heq, hfs]
          have hdec2 : recDecide hash inp.cursorDirName inp.force (safeUpgradeOf inp)
              inp.fs (baselineOf inp) rec = .skipExisting := hdec
          by_cases hbs : (baseEntryOf (baselineOf inp) (destOf inp.cursorDirName rec)).isSome
          · simp [hdec, specEntryAfter, recEntryDelta, hdec2, hc, hT, hbs]
          · have hbn : baseEntryOf (baselineOf inp) (destOf inp.cursorDirName rec) = none := by
              cases hx : baseEntryOf (baselineOf inp) (destOf inp.cursorDirName rec)
              · rfl
              · rw [hx] at hbs; simp at hbs
            simp [hdec, specEntryAfter, recEntryDelta, hdec2, hc, hT, hbs, hbn,
              lookupA_initManifest, jsTruthy]

/-! ## Claim theorems -/

/-- Claim C1: for every destination path, the reconciliation decision and the
resulting next-manifest entry are the first-match evaluation of the spec's
ordered rules (1) preserve, (2) create, (3) skip-unchanged, (4) the
`userModified` predicate, (5) conflict/update under force or safe-upgrade,
(6) skip-existing with baseline repair; and the decision is a pure function
of `(template, current, baseline, isPreserved, forceMode, safeUpgradeMode)`.
Part one: the code's decision branch structure `decideFile` equals the
spec's rule list `specDecide`.  Part two: in a run with distinct
destinations and successful writes, the committed manifest entry of every
destination equals `specEntryAfter` of its decision.  Baseline entries are
assumed to be non-empty digest strings, as every digest the program
produces is. -/
theorem c1_decision_and_entry_follow_spec_rules :
    (∀ (hash : Content → Fp) (plist : List String) (force safeUpgrade : Bool)
        (last : Option Fp) (tck : Fp) (cur : Option Content) (path : String),
      last ≠ some "" →
        decideFile hash plist force safeUpgrade last tck cur path =
          specDecide tck (cur.map hash) last (plist.any (fun p => strEndsWith path p))
            force safeUpgrade) ∧
    (∀ (hash : Content → Fp) (inp : RunInput), inp.dryRun = false →
      wfDests (destsOf inp) → (∀ p, inp.writeOk p = true) →
      ∀ rec ∈ inp.templates,
        baseEntryOf (baselineOf inp) (destOf inp.cursorDirName rec) ≠ some "" →
          lookupA (runInit hash inp).nextManifest (destOf inp.cursorDirName rec) =
            specEntryAfter (hash (ecOf inp.cursorDirName rec))
              ((lookupA inp.fs (destOf inp.cursorDirName rec)).map hash)
              (baseEntryOf (baselineOf inp) (destOf inp.cursorDirName rec))
              (recDecideOf hash inp rec)) :=
  ⟨fun hash plist force s last tck cur path hb =>
      decideFile_eq_specDecide hash plist force s last tck cur path hb,
    fun hash inp hd hwf hok _rec hrec hb => runInit_entry_spec hash inp hd hwf hok hrec hb⟩

/-- Witness input for C1: one hand-edited file under `--force` (conflict)
and one untouched record. -/
def c1winput : RunInput :=
  { templates := [("f.md", "T"), ("g.md", "G")],
    fs := [("f.md", "U")], manifestFile := .parsed [("f.md", "B")],
    hasCursor := true, rootExists := true, cursorDirName := ".cursor",
    force := true, dryRun := false, gitignore := false, zeroConfig := false,
    writeOk := fun _ => true }

theorem c1_witness :
    (decideFile id ["AGENTS.md"] false false (some "b") "t" (some "u") "x.md" =
      specDecide "t" (some "u") (some "b")
        ((["AGENTS.md"] : List String).any (fun p => strEndsWith "x.md" p)) false false) ∧
    (lookupA (runInit id c1winput).nextManifest (destOf c1winput.cursorDirName ("f.md", "T")) =
      specEntryAfter (id (ecOf c1winput.cursorDirName ("f.md", "T")))
        ((lookupA c1winput.fs (destOf c1winput.cursorDirName ("f.md", "T"))).map id)
        (baseEntryOf (baselineOf c1winput) (destOf c1winput.cursorDirName ("f.md", "T")))
        (recDecideOf id c1winput ("f.md", "T"))) :=
  ⟨c1_decision_and_entry_follow_spec_rules.1 id ["AGENTS.md"] false false (some "b") "t"
      (some "u") "x.md" (by decide),
    c1_decision_and_entry_follow_spec_rules.2 id c1winput rfl (by decide) (fun _ => rfl)
      ("f.md", "T") (by decide) (by decide)⟩

/-- Claim C10: preserve-list membership is decided by string suffix matching
(`endsWith`) against the destination path, not by exact path equality: any
destination that exists on disk and whose path string ends with a
preserve-list entry is decided `Preserve`. -/
theorem c10_preserve_is_suffix_match (hash : Content → Fp) (inp : RunInput)
    (rec : String × Content) (hrec : rec ∈ inp.templates)
    (hsuf : (preserveListFor inp.cursorDirName).any
      (fun p => strEndsWith (destOf inp.cursorDirName rec) p) = true)
    (cur : Content)
    (hcur : lookupA inp.fs (destOf inp.cursorDirName rec) = some cur) :
    (destOf inp.cursorDirName rec, Decision.preserve) ∈ (runInit hash inp).decisions := by
  rw [runInit_decisions, List.mem_map]
  refine ⟨rec, hrec, ?_⟩
  have hdec : recDecideOf hash inp rec = .preserve := by
    simp [recDecideOf, recDecide, decideFile, hcur, hsuf]
  rw [hdec]

/-- Witness input for C10: a destination that is not an exact member of the
preserve list but merely ends in `AGENTS.md`. -/
def c10winput : RunInput :=
  { templates := [("sub/MYAGENTS.md", "T")], fs := [("sub/MYAGENTS.md", "U")],
    manifestFile := .missing, hasCursor := false, rootExists := true,
    cursorDirName := ".cursor", force := false, dryRun := false, gitignore := false,
    zeroConfig := false, writeOk := fun _ => true }

theorem c10_witness :
    ("sub/MYAGENTS.md" ∉ preserveListFor ".cursor") ∧
      (destOf c10winput.cursorDirName ("sub/MYAGENTS.md", "T"), Decision.preserve) ∈
        (runInit id c10winput).decisions :=
  ⟨by decide,
    c10_preserve_is_suffix_match id c10winput ("sub/MYAGENTS.md", "T") (by decide)
      (by decide) "U" (by decide)⟩

/-- Claim C3: conflict safety.  For every destination whose decision is
`ConflictWriteSibling`, after a non-dry run with distinct destinations and
successful writes: the bytes at the original destination are unchanged,
the sibling file at destination plus the fixed `".new"` suffix holds
exactly the (effective) template bytes, and the sibling path never
receives a manifest entry (its committed value is whatever the baseline
already had). -/
theorem c3_conflict_safety (hash : Content → Fp) (inp : RunInput)
    (hd : inp.dryRun = false) (hwf : wfDests (destsOf inp))
    (hok : ∀ p, inp.writeOk p = true) (rec : String × Content)
    (hrec : rec ∈ inp.templates)
    (hconf : recDecideOf hash inp rec = .conflictWriteSibling) :
    lookupA (runInit hash inp).fs (destOf inp.cursorDirName rec) =
        lookupA inp.fs (destOf inp.cursorDirName rec) ∧
      lookupA (runInit hash inp).fs (destOf inp.cursorDirName rec ++ ".new") =
        some (ecOf inp.cursorDirName rec) ∧
      lookupA (runInit hash inp).nextManifest (destOf inp.cursorDirName rec ++ ".new") =
        lookupA (initManifest (baselineOf inp)) (destOf inp.cursorDirName rec ++ ".new") := by
  refine ⟨?_, runInit_fs_at_sibling hash inp hd hwf hok hrec hconf, ?_⟩
  · rw [runInit_fs_at_dest hash inp hd hwf hok hrec, if_neg (by simp [hconf])]
  · apply runInit_manifest_at_nondest
    intro a ha heq
    have hdm : destOf inp.cursorDirName rec ∈ destsOf inp := by
      simp only [destsOf, List.mem_map]
      exact ⟨rec, hrec, rfl⟩
    have ham : destOf inp.cursorDirName a ∈ destsOf inp := by
      simp only [destsOf, List.mem_map]
      exact ⟨a, ha, rfl⟩
    exact hwf.2 _ hdm _ ham heq.symm

/-- Witness input for C3: a hand-edited file under `--force`. -/
def c3winput : RunInput :=
  { templates := [("doc.md", "T")], fs := [("doc.md", "U")],
    manifestFile := .parsed [("doc.md", "B")], hasCursor := true, rootExists := true,
    cursorDirName := ".cursor", force := true, dryRun := false, gitignore := false,
    zeroConfig := false, writeOk := fun _ => true }

theorem c3_witness :
    lookupA (runInit id c3winput).fs (destOf c3winput.cursorDirName ("doc.md", "T")) =
        lookupA c3winput.fs (destOf c3winput.cursorDirName ("doc.md", "T")) ∧
      lookupA (runInit id c3winput).fs (destOf c3winput.cursorDirName ("doc.md", "T") ++ ".new") =
        some (ecOf c3winput.cursorDirName ("doc.md", "T")) ∧
      lookupA (runInit id c3winput).nextManifest
          (destOf c3winput.cursorDirName ("doc.md", "T") ++ ".new") =
        lookupA (initManifest (baselineOf c3winput))
          (destOf c3winput.cursorDirName ("doc.md", "T") ++ ".new") :=
  c3_conflict_safety id c3winput rfl (by decide) (fun _ => rfl) ("doc.md", "T") (by decide)
    (by decide)

/-- Claim C4: preserve invariant.  For every preserve-list destination whose
current content is present at run start, after a non-dry run with distinct
destinations and successful writes: the post-run bytes equal the pre-run
bytes, the manifest is committed, and the committed fingerprint for that
path is the fingerprint of the (unchanged) on-disk content, not of the
template. -/
theorem c4_preserve_invariant (hash : Content → Fp) (inp : RunInput)
    (hd : inp.dryRun = false) (hwf : wfDests (destsOf inp))
    (hok : ∀ p, inp.writeOk p = true) (rec : String × Content)
    (hrec : rec ∈ inp.templates)
    (hsuf : (preserveListFor inp.cursorDirName).any
      (fun p => strEndsWith (destOf inp.cursorDirName rec) p) = true)
    (cur : Content)
    (hcur : lookupA inp.fs (destOf inp.cursorDirName rec) = some cur) :
    lookupA (runInit hash inp).fs (destOf inp.cursorDirName rec) = some cur ∧
      (runInit hash inp).committed = some (runInit hash inp).nextManifest ∧
      lookupA (runInit hash inp).nextManifest (destOf inp.cursorDirName rec) =
        some (hash cur) := by
  have hdec : recDecideOf hash inp rec = .preserve := by
    simp [recDecideOf, recDecide, decideFile, hcur, hsuf]
  refine ⟨?_, ?_, ?_⟩
  · rw [runInit_fs_at_dest hash inp hd hwf hok hrec, if_neg (by simp [hdec])]
    exact hcur
  · rw [runInit_committed_nondry hash inp hd, if_pos (hok _)]
  · rw [runInit_manifest_at_dest hash inp hd hwf hok hrec, if_neg (by simp [hdec])]
    have hdec2 : recDecide hash inp.cursorDirName inp.force (safeUpgradeOf inp) inp.fs
        (baselineOf inp) rec = .preserve := hdec
    simp [recEntryDelta, hdec2, hcur]

/-- Witness input for C4: an existing `AGENTS.md` with user content. -/
def c4winput : RunInput :=
  { templates := [("AGENTS.md", "T")], fs := [("AGENTS.md", "mine")],
    manifestFile := .missing, hasCursor := false, rootExists := true,
    cursorDirName := ".cursor", force := false, dryRun := false, gitignore := false,
    zeroConfig := false, writeOk := fun _ => true }

theorem c4_witness :
    lookupA (runInit id c4winput).fs (destOf c4winput.cursorDirName ("AGENTS.md", "T")) =
        some "mine" ∧
      (runInit id c4winput).committed = some (runInit id c4winput).nextManifest ∧
      lookupA (runInit id c4winput).nextManifest
          (destOf c4winput.cursorDirName ("AGENTS.md", "T")) = some (id "mine") :=
  c4_preserve_invariant id c4winput rfl (by decide) (fun _ => rfl) ("AGENTS.md", "T")
    (by decide) (by decide) "mine" (by decide)

/-! ## Trace predicates -/

/-- Is this operation a per-file (template/sibling) write? -/
def isWriteFileOp : FsOp → Bool
  | .writeFile _ _ => true
  | _ => false

/-- Is this operation the manifest commit write? -/
def isManifestWriteOp : FsOp → Bool
  | .writeManifest _ => true
  | _ => false

/-- Is this operation an atomic rename? -/
def isRenameOp : FsOp → Bool
  | .rename _ _ => true
  | _ => false

/-- Is this operation a file write to path `p`? -/
def isWriteTo (p : String) : FsOp → Bool
  | .writeFile q _ => q == p
  | _ => false

/-- Claim C8, amended: manifest persistence happens at most once per run
(exactly once outside dry-run, never in dry-run), strictly after every
per-file write has been attempted, and as a single plain write: the run
performs no rename, so the commit is not write-then-rename. -/
theorem c8_commit_once_at_end_plain_write (hash : Content → Fp) (inp : RunInput) :
    ((runInit hash inp).trace.filter isManifestWriteOp).length =
        (if inp.dryRun then 0 else 1) ∧
      (runInit hash inp).trace.filter isRenameOp = [] ∧
      (runInit hash inp).trace.filter (fun op => isWriteFileOp op || isManifestWriteOp op) =
        (runInit hash inp).trace.filter isWriteFileOp ++
          (runInit hash inp).trace.filter isManifestWriteOp := by
  by_cases hd : inp.dryRun
  · have ht : (runInit hash inp).trace = rootTrace inp := (runInit_dry hash inp hd).2.2.1
    rw [ht]
    unfold rootTrace
    by_cases hr : inp.rootExists <;>
      simp [hr, hd, isManifestWriteOp, isRenameOp, isWriteFileOp]
  · rw [runInit_trace_nondry hash inp (by simpa using hd)]
    have hroot : ∀ op ∈ rootTrace inp, op = FsOp.ensureRootDir := by
      unfold rootTrace
      by_cases hr : inp.rootExists <;> simp [hr]
    have h1 : (rootTrace inp).filter isManifestWriteOp = [] := by
      rw [List.filter_eq_nil_iff]
      intro op hop
      rw [hroot op hop]
      simp [isManifestWriteOp]
    have h2 : (rootTrace inp).filter isWriteFileOp = [] := by
      rw [List.filter_eq_nil_iff]
      intro op hop
      rw [hroot op hop]
      simp [isWriteFileOp]
    have h3 : (rootTrace inp).filter isRenameOp = [] := by
      rw [List.filter_eq_nil_iff]
      intro op hop
      rw [hroot op hop]
      simp [isRenameOp]
    have h4 : (rootTrace inp).filter (fun op => isWriteFileOp op || isManifestWriteOp op)
        = [] := by
      rw [List.filter_eq_nil_iff]
      intro op hop
      rw [hroot op hop]
      simp [isWriteFileOp, isManifestWriteOp]
    have hWmem : ∀ op ∈ (writesOf (decStateOf hash inp)).map
        (fun w => FsOp.writeFile w.1 w.2.1), isWriteFileOp op = true ∧
          isManifestWriteOp op = false ∧ isRenameOp op = false := by
      intro op hop
      rw [List.mem_map] at hop
      obtain ⟨w, _, hw⟩ := hop
      rw [← hw]
      simp [isWriteFileOp, isManifestWriteOp, isRenameOp]
    have hW1 : ((writesOf (decStateOf hash inp)).map
        (fun w => FsOp.writeFile w.1 w.2.1)).filter isManifestWriteOp = [] := by
      rw [List.filter_eq_nil_iff]
      intro op hop
      simp [(hWmem op hop).2.1]
    have hW2 : ((writesOf (decStateOf hash inp)).map
        (fun w => FsOp.writeFile w.1 w.2.1)).filter isWriteFileOp =
        (writesOf (decStateOf hash inp)).map (fun w => FsOp.writeFile w.1 w.2.1) :=
      List.filter_eq_self.mpr fun op hop => (hWmem op hop).1
    have hW3 : ((writesOf (decStateOf hash inp)).map
        (fun w => FsOp.writeFile w.1 w.2.1)).filter isRenameOp = [] := by
      rw [List.filter_eq_nil_iff]
      intro op hop
      simp [(hWmem op hop).2.2]
    have hW4 : ((writesOf (decStateOf hash inp)).map
        (fun w => FsOp.writeFile w.1 w.2.1)).filter
          (fun op => isWriteFileOp op || isManifestWriteOp op) =
        (writesOf (decStateOf hash inp)).map (fun w => FsOp.writeFile w.1 w.2.1) :=
      List.filter_eq_self.mpr fun op hop => by simp [(hWmem op hop).1]
    have hOmem : ∀ op ∈ (optionalTargets inp (runInit hash inp).fs).map FsOp.writeOptional,
        isWriteFileOp op = false ∧ isManifestWriteOp op = false ∧ isRenameOp op = false := by
      intro op hop
      rw [List.mem_map] at hop
      obtain ⟨w, _, hw⟩ := hop
      rw [← hw]
      simp [isWriteFileOp, isManifestWriteOp, isRenameOp]
    have hO1 : ((optionalTargets inp (runInit hash inp).fs).map FsOp.writeOptional).filter
        isManifestWriteOp = [] := by
      rw [List.filter_eq_nil_iff]
      intro op hop
      simp [(hOmem op hop).2.1]
    have hO2 : ((optionalTargets inp (runInit hash inp).fs).map FsOp.writeOptional).filter
        isWriteFileOp = [] := by
      rw [List.filter_eq_nil_iff]
      intro op hop
      simp [(hOmem op hop).1]
    have hO3 : ((optionalTargets inp (runInit hash inp).fs).map FsOp.writeOptional).filter
        isRenameOp = [] := by
      rw [List.filter_eq_nil_iff]
      intro op hop
      simp [(hOmem op hop).2.2]
    have hO4 : ((optionalTargets inp (runInit hash inp).fs).map FsOp.writeOptional).filter
        (fun op => isWriteFileOp op || isManifestWriteOp op) = [] := by
      rw [List.filter_eq_nil_iff]
      intro op hop
      simp [(hOmem op hop).1, (hOmem op hop).2.1]
    have hM1 : [FsOp.writeManifest (runInit hash inp).nextManifest].filter
        isManifestWriteOp = [FsOp.writeManifest (runInit hash inp).nextManifest] := by
      simp [isManifestWriteOp]
    have hM2 : [FsOp.writeManifest (runInit hash inp).nextManifest].filter
        isWriteFileOp = [] := by
      simp [isWriteFileOp]
    have hM3 : [FsOp.writeManifest (runInit hash inp).nextManifest].filter
        isRenameOp = [] := by
      simp [isRenameOp]
    have hM4 : [FsOp.writeManifest (runInit hash inp).nextManifest].filter
        (fun op => isWriteFileOp op || isManifestWriteOp op) =
        [FsOp.writeManifest (runInit hash inp).nextManifest] := by
      simp [isWriteFileOp, isManifestWriteOp]
    rw [List.append_assoc, List.append_assoc]
    simp only [List.filter_append, h1, h2, h3, h4, hW1, hW2, hW3, hW4, hO1, hO2, hO3, hO4,
      hM1, hM2, hM3, hM4, hd]
    simp

/-- Input of the C8 counterexample: an ordinary successful non-dry run. -/
def c8xinput : RunInput :=
  { templates := [("a.md", "x")], fs := [], manifestFile := .missing,
    hasCursor := false, rootExists := true, cursorDirName := ".cursor",
    force := false, dryRun := false, gitignore := false, zeroConfig := false,
    writeOk := fun _ => true }

/-- Claim C8, counterexample: the manifest commit is performed as a direct
write with no rename anywhere in the run, so it is not atomic
(write-then-rename or equivalent) as the claim states. -/
theorem c8_counterexample :
    (runInit id c8xinput).trace.any isManifestWriteOp = true ∧
      (runInit id c8xinput).trace.any isRenameOp = false := by decide

/-- Optional-failure projection of a non-dry run. -/
theorem runInit_optional_nondry (hash : Content → Fp) (inp : RunInput)
    (hd : inp.dryRun = false) :
    (runInit hash inp).optionalFailures =
      (optionalTargets inp (runInit hash inp).fs).filter (fun p => !inp.writeOk p) := by
  simp [runInit, hd]

/-- Claim C9: per-file failure isolation.  In every non-dry run, every
per-file write is attempted regardless of earlier failures (the trace
lists one write per pending creation/update/sibling, in order); every
critical (required-destination) write failure, including a manifest commit
failure, is collected as a structured record and they are all reported
together; the run exits failed exactly when a critical failure was
recorded; optional (auxiliary) write failures are collected separately and
do not affect the exit status. -/
theorem c9_failure_isolation (hash : Content → Fp) (inp : RunInput)
    (hd : inp.dryRun = false) :
    ((runInit hash inp).trace.filter isWriteFileOp =
        (writesOf (decStateOf hash inp)).map (fun w => FsOp.writeFile w.1 w.2.1)) ∧
      ((runInit hash inp).criticalFailures =
        ((writesOf (decStateOf hash inp)).filter (fun w => !inp.writeOk w.1)).map
            (fun w => w.1) ++
          (if inp.writeOk manifestFileName then [] else [manifestFileName])) ∧
      ((runInit hash inp).exitFailed = !((runInit hash inp).criticalFailures == [])) ∧
      ((runInit hash inp).optionalFailures =
        (optionalTargets inp (runInit hash inp).fs).filter (fun p => !inp.writeOk p)) := by
  refine ⟨?_, runInit_critical_nondry hash inp hd, runInit_exitFailed hash inp,
    runInit_optional_nondry hash inp hd⟩
  rw [runInit_trace_nondry hash inp hd]
  have hroot : ∀ op ∈ rootTrace inp, op = FsOp.ensureRootDir := by
    unfold rootTrace
    by_cases hr : inp.rootExists <;> simp [hr]
  have h2 : (rootTrace inp).filter isWriteFileOp = [] := by
    rw [List.filter_eq_nil_iff]
    intro op hop
    rw [hroot op hop]
    simp [isWriteFileOp]
  have hW2 : ((writesOf (decStateOf hash inp)).map
      (fun w => FsOp.writeFile w.1 w.2.1)).filter isWriteFileOp =
      (writesOf (decStateOf hash inp)).map (fun w => FsOp.writeFile w.1 w.2.1) := by
    apply List.filter_eq_self.mpr
    intro op hop
    rw [List.mem_map] at hop
    obtain ⟨w, _, hw⟩ := hop
    rw [← hw]
    simp [isWriteFileOp]
  have hO2 : ((optionalTargets inp (runInit hash inp).fs).map FsOp.writeOptional).filter
      isWriteFileOp = [] := by
    rw [List.filter_eq_nil_iff]
    intro op hop
    rw [List.mem_map] at hop
    obtain ⟨w, _, hw⟩ := hop
    rw [← hw]
    simp [isWriteFileOp]
  have hM2 : [FsOp.writeManifest (runInit hash inp).nextManifest].filter
      isWriteFileOp = [] := by
    simp [isWriteFileOp]
  rw [List.append_assoc, List.append_assoc]
  simp only [List.filter_append, h2, hW2, hO2, hM2]
  simp

/-- Input of the C9 witness: one write fails, one succeeds. -/
def c9winput : RunInput :=
  { templates := [("bad.md", "B"), ("good.md", "G")], fs := [], manifestFile := .missing,
    hasCursor := false, rootExists := true, cursorDirName := ".cursor",
    force := false, dryRun := false, gitignore := false, zeroConfig := false,
    writeOk := fun p => !(p == "bad.md") }

theorem c9_witness :
    ((runInit id c9winput).trace.filter isWriteFileOp =
        (writesOf (decStateOf id c9winput)).map (fun w => FsOp.writeFile w.1 w.2.1)) ∧
      ((runInit id c9winput).criticalFailures =
        ((writesOf (decStateOf id c9winput)).filter (fun w => !c9winput.writeOk w.1)).map
            (fun w => w.1) ++
          (if c9winput.writeOk manifestFileName then [] else [manifestFileName])) ∧
      ((runInit id c9winput).exitFailed = !((runInit id c9winput).criticalFailures == [])) ∧
      ((runInit id c9winput).optionalFailures =
        (optionalTargets c9winput (runInit id c9winput).fs).filter
          (fun p => !c9winput.writeOk p)) :=
  c9_failure_isolation id c9winput rfl

/-- Claim C7, amended: a dry run mutates no file: the target tree is
unchanged, no manifest is committed, no write is attempted and no failure
recorded — but the missing target root directory IS created even under
dry-run, because the `ensureDirSync` call precedes the dry-run check. -/
theorem c7_dry_run_frame (hash : Content → Fp) (inp : RunInput) (hd : inp.dryRun = true) :
    (runInit hash inp).fs = inp.fs ∧ (runInit hash inp).committed = none ∧
      (runInit hash inp).criticalFailures = [] ∧ (runInit hash inp).exitFailed = false ∧
      (runInit hash inp).trace = (if inp.rootExists then [] else [FsOp.ensureRootDir]) := by
  obtain ⟨h1, h2, h3, h4, h5⟩ := runInit_dry hash inp hd
  exact ⟨h1, h2, h4, h5, by rw [h3]; rfl⟩

/-- Input of the C7 counterexample/witness: dry-run against a missing
target root. -/
def c7xinput : RunInput :=
  { templates := [("a.md", "x")], fs := [], manifestFile := .missing,
    hasCursor := false, rootExists := false, cursorDirName := ".cursor",
    force := false, dryRun := true, gitignore := true, zeroConfig := false,
    writeOk := fun _ => true }

/-- Claim C7, counterexample: under `--dry-run` with a missing target root,
the run still creates the target root directory, contradicting the claim
that a missing target root is never created. -/
theorem c7_counterexample :
    c7xinput.dryRun = true ∧ c7xinput.rootExists = false ∧
      FsOp.ensureRootDir ∈ (runInit id c7xinput).trace := by decide

theorem c7_witness :
    (runInit id c7xinput).fs = c7xinput.fs ∧ (runInit id c7xinput).committed = none ∧
      (runInit id c7xinput).criticalFailures = [] ∧
      (runInit id c7xinput).exitFailed = false ∧
      (runInit id c7xinput).trace =
        (if c7xinput.rootExists then [] else [FsOp.ensureRootDir]) :=
  c7_dry_run_frame id c7xinput rfl

/-- Congruence of the per-file loop in the baseline: an unparsable
(absent) baseline behaves exactly like a parsed empty `files` map. -/
theorem processRecord_baseline_none_empty (hash : Content → Fp) (cd : String)
    (force safeUpgrade : Bool) (fs0 : List (String × Content)) :
    processRecord hash cd force safeUpgrade fs0 none =
      processRecord hash cd force safeUpgrade fs0 (some []) := by
  funext st rec
  unfold processRecord
  cases lookupA fs0 (mapTemplatePath cd rec.1) <;> simp [lookupA]

/-- Claim C2, amended: a manifest file that exists but fails to parse
degrades the baseline to absent with only a warning and the run proceeds
exactly as with a present-but-empty manifest — in particular safe-upgrade
mode is NOT entered, because `safeUpgradeWithoutManifest` tests only file
existence. -/
theorem c2_corrupt_manifest_degrades_without_safe_upgrade (hash : Content → Fp)
    (inp : RunInput) (hc : inp.manifestFile = .corrupt) :
    loadBaseline inp.manifestFile = none ∧ safeUpgradeOf inp = false ∧
      runInit hash inp = runInit hash { inp with manifestFile := .parsed [] } := by
  obtain ⟨ts, fs, mf, hcur, re, cd, fo, dr, gi, zc, wo⟩ := inp
  cases hc
  refine ⟨rfl, by simp [safeUpgradeOf, safeUpgradeFlag, hasManifestFile], ?_⟩
  have hds : decStateOf hash
      (RunInput.mk ts fs .corrupt hcur re cd fo dr gi zc wo) =
      decStateOf hash (RunInput.mk ts fs (.parsed []) hcur re cd fo dr gi zc wo) := by
    unfold decStateOf decisionPhase
    simp only [safeUpgradeOf, safeUpgradeFlag, hasManifestFile, baselineOf, loadBaseline,
      initManifest, Option.getD]
    rw [processRecord_baseline_none_empty]
  simp only [runInit, hds]
  rfl

/-- Input of the C2 counterexample, parameterised by the manifest state:
a cursor directory exists, no `--force`, and one destination diverges from
its template. -/
def c2xinput (mf : ManifestFile) : RunInput :=
  { templates := [("f.md", "T")], fs := [("f.md", "U")], manifestFile := mf,
    hasCursor := true, rootExists := true, cursorDirName := ".cursor",
    force := false, dryRun := false, gitignore := false, zeroConfig := false,
    writeOk := fun _ => true }

/-- Claim C2, counterexample: with a corrupt (present but unparsable)
manifest the run does NOT enter safe-upgrade mode and decides
`SkipExisting` for a diverged file, whereas with a missing manifest it
enters safe-upgrade mode and decides `ConflictWriteSibling` — so a parse
failure is not treated "exactly as if the manifest were missing". -/
theorem c2_counterexample :
    hasManifestFile ManifestFile.corrupt = true ∧
      loadBaseline ManifestFile.corrupt = none ∧
      safeUpgradeOf (c2xinput .corrupt) = false ∧
      safeUpgradeOf (c2xinput .missing) = true ∧
      (runInit id (c2xinput .corrupt)).decisions = [("f.md", Decision.skipExisting)] ∧
      (runInit id (c2xinput .missing)).decisions =
        [("f.md", Decision.conflictWriteSibling)] := by decide

theorem c2_witness :
    loadBaseline (c2xinput .corrupt).manifestFile = none ∧
      safeUpgradeOf (c2xinput .corrupt) = false ∧
      runInit id (c2xinput .corrupt) =
        runInit id { c2xinput .corrupt with manifestFile := .parsed [] } :=
  c2_corrupt_manifest_degrades_without_safe_upgrade id (c2xinput .corrupt) rfl

/-- Claim C6, amended: destination collisions are not detected or rejected:
every template record is processed and receives its own decision — the run
always emits exactly one decision per record, colliding or not, and
proceeds to write. -/
theorem c6_no_collision_rejection (hash : Content → Fp) (inp : RunInput) :
    (runInit hash inp).decisions.length = inp.templates.length := by
  rw [runInit_decisions, List.length_map]

/-- Input of the C6 counterexample: two distinct template paths mapping to
the same destination (the `file-doc-map.template.json` rename collides
with a literal `file-doc-map.json`). -/
def c6xinput : RunInput :=
  { templates := [("x/file-doc-map.template.json", "A"), ("x/file-doc-map.json", "B")],
    fs := [], manifestFile := .missing, hasCursor := false, rootExists := true,
    cursorDirName := ".cursor", force := false, dryRun := false, gitignore := false,
    zeroConfig := false, writeOk := fun _ => true }

/-- Claim C6, counterexample: two distinct template relative paths map to the
same destination, yet the run is not aborted: it exits successfully and
writes the shared destination twice (the later record wins). -/
theorem c6_counterexample :
    mapTemplatePath ".cursor" "x/file-doc-map.template.json" =
        mapTemplatePath ".cursor" "x/file-doc-map.json" ∧
      ("x/file-doc-map.template.json" : String) ≠ "x/file-doc-map.json" ∧
      (runInit id c6xinput).exitFailed = false ∧
      ((runInit id c6xinput).trace.filter (isWriteTo "x/file-doc-map.json")).length = 2 ∧
      lookupA (runInit id c6xinput).fs "x/file-doc-map.json" = some "B" := by decide

/-! ## Idempotence of consecutive runs -/

/-- The input of an immediately-following second run: same template tree
and flags, target tree as left by the first run, manifest file as
committed by the first run (no external modification in between). -/
def rerunInput (hash : Content → Fp) (inp : RunInput) : RunInput :=
  { inp with fs := (runInit hash inp).fs,
             manifestFile := .parsed (runInit hash inp).nextManifest }

theorem safeUpgrade_missing {inp : RunInput} (h : safeUpgradeOf inp = true) :
    inp.manifestFile = .missing := by
  unfold safeUpgradeOf safeUpgradeFlag at h
  cases hm : inp.manifestFile <;> rw [hm] at h <;> simp [hasManifestFile] at h ⊢

theorem safeUpgrade_not_force {inp : RunInput} (h : safeUpgradeOf inp = true) :
    inp.force = false := by
  unfold safeUpgradeOf safeUpgradeFlag at h
  cases hf : inp.force <;> rw [hf] at h <;> simp at h ⊢

/-- Decision of one record on the second run: never `Create` and never
`UpdateInPlace`. -/
theorem rerun_decision (hash : Content → Fp) (inp : RunInput)
    (hd : inp.dryRun = false) (hwf : wfDests (destsOf inp))
    (hok : ∀ p, inp.writeOk p = true) {rec : String × Content}
    (hrec : rec ∈ inp.templates) :
    recDecideOf hash (rerunInput hash inp) rec ≠ Decision.create ∧
      recDecideOf hash (rerunInput hash inp) rec ≠ Decision.updateInPlace := by
  have hexp : recDecideOf hash (rerunInput hash inp) rec =
      decideFile hash (preserveListFor inp.cursorDirName) inp.force false
        (lookupA (runInit hash inp).nextManifest (destOf inp.cursorDirName rec))
        (hash (ecOf inp.cursorDirName rec))
        (lookupA (runInit hash inp).fs (destOf inp.cursorDirName rec))
        (destOf inp.cursorDirName rec) := by
    simp [recDecideOf, recDecide, rerunInput, safeUpgradeOf, safeUpgradeFlag,
      hasManifestFile, baselineOf, loadBaseline, baseEntryOf, destOf, ecOf]
  rw [hexp, runInit_fs_at_dest hash inp hd hwf hok hrec,
    runInit_manifest_at_dest hash inp hd hwf hok hrec]
  cases hc : lookupA inp.fs (destOf inp.cursorDirName rec) with
  | none =>
    have hdec : recDecideOf hash inp rec = .create := by
      simp [recDecideOf, recDecide, decideFile, hc]
    by_cases hp : (preserveListFor inp.cursorDirName).any
        (fun p => strEndsWith (destOf inp.cursorDirName rec) p) <;>
      simp [decideFile, hdec, hp]
  | some cur =>
    by_cases hp : (preserveListFor inp.cursorDirName).any
        (fun p => strEndsWith (destOf inp.cursorDirName rec) p)
    · have hdec : recDecideOf hash inp rec = .preserve := by
        simp [recDecideOf, recDecide, decideFile, hc, hp]
      simp [decideFile, hdec, hp]
    · by_cases heq : hash cur = hash (ecOf inp.cursorDirName rec)
      · have hdec : recDecideOf hash inp rec = .skipUnchanged := by
          simp [recDecideOf, recDecide, decideFile, hc, hp, heq]
        simp [decideFile, hdec, hp, heq]
      · by_cases hfs : (inp.force || safeUpgradeOf inp) = true
        · by_cases hjt : jsTruthy (baseEntryOf (baselineOf inp)
              (destOf inp.cursorDirName rec)) = true
          · by_cases hbe : baseEntryOf (baselineOf inp) (destOf inp.cursorDirName rec)
                = some (hash cur)
            · -- first run updated in place; second run sees the template content
              rw [hbe] at hjt
              have hdec : recDecideOf hash inp rec = .updateInPlace := by
                simp [recDecideOf, recDecide, decideFile, hc, hp, heq, hfs, hjt, hbe]
              simp [decideFile, hdec, hp]
            · -- conflict against a recorded baseline: force must be on
              have hforce : inp.force = true := by
                rcases (Bool.or_eq_true _ _).mp hfs with h2 | h2
                · exact h2
                · have hmf := safeUpgrade_missing h2
                  have : baseEntryOf (baselineOf inp) (destOf inp.cursorDirName rec)
                      = none := by
                    simp [baseEntryOf, baselineOf, hmf, loadBaseline]
                  rw [this] at hjt
                  simp [jsTruthy] at hjt
              have hdec : recDecideOf hash inp rec = .conflictWriteSibling := by
                simp [recDecideOf, recDecide, decideFile, hc, hp, heq, hfs, hjt, hbe]
              have hdec2 : recDecide hash inp.cursorDirName inp.force (safeUpgradeOf inp)
                  inp.fs (baselineOf inp) rec = .conflictWriteSibling := hdec
              rw [hforce] at hdec2
              rw [hforce]
              have hdelta : recEntryDelta hash inp.cursorDirName true (safeUpgradeOf inp)
                  inp.fs (baselineOf inp) rec = none := by
                simp [recEntryDelta, hdec2, hc]
              simp [decideFile, hdec, hdelta, hp, heq, hjt, hbe, lookupA_initManifest]
          · by_cases hsu : safeUpgradeOf inp = true
            · -- safe-upgrade conflict without a baseline: no force, manifest was missing
              have hforce := safeUpgrade_not_force hsu
              have hdec : recDecideOf hash inp rec = .conflictWriteSibling := by
                simp [recDecideOf, recDecide, decideFile, hc, hp, heq, hfs, hjt, hsu]
              simp [decideFile, hdec, hp, heq, hforce]
            · -- update in place under plain force
              have hforce : inp.force = true := by
                rcases (Bool.or_eq_true _ _).mp hfs with h2 | h2
                · exact h2
                · exact absurd h2 hsu
              have hdec : recDecideOf hash inp rec = .updateInPlace := by
                simp [recDecideOf, recDecide, decideFile, hc, hp, heq, hfs, hjt, hsu,
                  hforce]
              simp [decideFile, hdec, hp]
        · -- skip existing: neither force nor safe-upgrade, and so on rerun too
          have hforce : inp.force = false := by
            cases hf : inp.force
            · rfl
            · rw [hf] at hfs
              simp at hfs
          have hdec : recDecideOf hash inp rec = .skipExisting := by
            simp [recDecideOf, recDecide, decideFile, hc, hp, heq, hfs]
          simp [decideFile, hdec, hp, heq, hforce]

/-- Claim C5: idempotence.  A second run immediately after a successful
non-dry run — same template tree, same flags, no external modification of
the target in between — produces zero `Create` and zero `UpdateInPlace`
decisions. -/
theorem c5_second_run_no_create_no_update (hash : Content → Fp) (inp : RunInput)
    (hd : inp.dryRun = false) (hwf : wfDests (destsOf inp))
    (hok : ∀ p, inp.writeOk p = true) :
    ∀ pd ∈ (runInit hash (rerunInput hash inp)).decisions,
      pd.2 ≠ Decision.create ∧ pd.2 ≠ Decision.updateInPlace := by
  intro pd hpd
  rw [runInit_decisions, List.mem_map] at hpd
  obtain ⟨rec, hrec, hpdeq⟩ := hpd
  subst hpdeq
  exact rerun_decision hash inp hd hwf hok hrec

/-- Input of the C5 witness: a mixed first run (create, preserve, skip). -/
def c5winput : RunInput :=
  { templates := [("a.md", "A"), ("AGENTS.md", "T"), ("b.md", "B")],
    fs := [("AGENTS.md", "mine"), ("b.md", "edited")],
    manifestFile := .missing, hasCursor := false, rootExists := true,
    cursorDirName := ".cursor", force := false, dryRun := false, gitignore := true,
    zeroConfig := false, writeOk := fun _ => true }

theorem c5_witness :
    ("b.md", Decision.skipExisting).2 ≠ Decision.create ∧
      ("b.md", Decision.skipExisting).2 ≠ Decision.updateInPlace :=
  c5_second_run_no_create_no_update id c5winput rfl (by decide) (fun _ => rfl)
    ("b.md", Decision.skipExisting) (by decide)


end AiKit
